import Mathlib

/-!
Verification of the filename-allocation core of `downloader.py`
(mtg-downloader).  Strings are modelled as `List Char`; the mutable
module-level registry `get_key.keys` and the on-disk file set are threaded
explicitly through a small state record.  Machine behaviour that Python
leaves implicit (left-to-right argument evaluation, exceptions from missing
dictionary keys, the silent `except OSError` in `rename_file`) is made
explicit in the embedding.
-/

namespace MtgDownloader

/-- Characters removed by Python's `str.strip()` (the whitespace set,
restricted to the ASCII fragment actually reachable in this program). -/
def pyIsSpace (c : Char) : Bool :=
  c = ' ' || c = '\t' || c = '\n' || c = '\r' || c = '\x0b' || c = '\x0c'

/-- Python's regex word character `\w`: alphanumeric or underscore.
The source uses `(?u)` (Unicode) mode; the embedding models the ASCII
fragment of the word-character class, which is the fragment all claims
and the repository's own tests exercise. -/
def pyIsWord (c : Char) : Bool :=
  c.isAlphanum || c = '_'

/-- The character class kept by the regex `[^-\w .;,:+\']` in
`get_valid_filename`: `-`, word characters, space, `.`, `;`, `,`, `:`,
`+` and the apostrophe. -/
def pyAccepted (c : Char) : Bool :=
  c = '-' || pyIsWord c || c = ' ' || c = '.' || c = ';' || c = ',' ||
    c = ':' || c = '+' || c = '\''

/-- Python `str.strip()`: drop leading and trailing whitespace. -/
def pyStrip (l : List Char) : List Char :=
  ((l.dropWhile pyIsSpace).reverse.dropWhile pyIsSpace).reverse

/-- Python `filename.replace(' // ', '')`: remove every non-overlapping
occurrence of the four-character token `' // '`, scanning left to right. -/
def pyReplaceSep : List Char → List Char
  | ' ' :: '/' :: '/' :: ' ' :: rest => pyReplaceSep rest
  | c :: rest => c :: pyReplaceSep rest
  | [] => []

/-- `get_valid_filename(name)` from `downloader.py`: strip, remove the
`' // '` face separator, then delete every character outside the accepted
class. -/
def get_valid_filename (name : List Char) : List Char :=
  (pyReplaceSep (pyStrip name)).filter pyAccepted

/-- One decimal digit character (defined by cases so that facts about it
are decidable by evaluation). -/
def decDigit (n : Nat) : Char :=
  match n with
  | 0 => '0' | 1 => '1' | 2 => '2' | 3 => '3' | 4 => '4'
  | 5 => '5' | 6 => '6' | 7 => '7' | 8 => '8' | 9 => '9'
  | _ => '*'

/-- Fuelled helper for `natToDec` (structural recursion on the fuel so the
definition evaluates inside the kernel). -/
def natToDecAux (fuel n : Nat) : List Char :=
  match fuel with
  | 0 => []
  | f + 1 =>
    if n < 10 then [decDigit n]
    else natToDecAux f (n / 10) ++ [decDigit (n % 10)]

/-- The decimal representation of a natural number, as produced by
Python's `str(n)` for the nonneg integers this program feeds it. -/
def natToDec (n : Nat) : List Char :=
  natToDecAux (n + 1) n

/-- Value of a decimal digit string, as computed by Python's `int(...)`
on a string of digits (leading zeros allowed). -/
def digitsVal (l : List Char) : Nat :=
  l.foldl (fun a c => a * 10 + (c.toNat - 48)) 0

/-- Association-list lookup for the registry `get_key.keys`
(a Python dict keyed by strings). -/
def lookupK (ks : List (List Char × Nat)) (k : List Char) : Option Nat :=
  match ks with
  | [] => none
  | (k', v) :: rest => if k' = k then some v else lookupK rest k

/-- Association-list update `keys[key] = v` (replaces the binding if the
key is present, otherwise appends it). -/
def setK (ks : List (List Char × Nat)) (k : List Char) (v : Nat) :
    List (List Char × Nat) :=
  match ks with
  | [] => [(k, v)]
  | (k', v') :: rest =>
    if k' = k then (k', v) :: rest else (k', v') :: setK rest k v

/-- The registry key `"{set_name}/{name}"` built by `get_key`
(with `name` already sanitized). -/
def mkKey (set_name name : List Char) : List Char :=
  set_name ++ '/' :: name

/-- A record carrying just the `'name'` field of a card or face dict, the
only field `get_key` and `get_filename` read or write. -/
structure CardN where
  name : List Char
deriving DecidableEq

/-- `get_key(card, set_name)` from `downloader.py`: sanitize the card's
name, look the key `set_name/name` up in the registry; on first occurrence
record count 1 and return the name unchanged, otherwise bump the count to
`N` and return the name with decimal `N` appended. -/
def get_key (ks : List (List Char × Nat)) (card : CardN)
    (set_name : List Char) : List Char × List (List Char × Nat) :=
  let name := get_valid_filename card.name
  let key := mkKey set_name name
  match lookupK ks key with
  | none => (name, setK ks key 1)
  | some c => (name ++ natToDec (c + 1), setK ks key (c + 1))

/-- `os.path.join(d, n)` for the two-argument uses in `downloader.py`. -/
def os_path_join (d n : List Char) : List Char :=
  if n.head? = some '/' then n
  else if d = [] then n
  else if d.getLast? = some '/' then d ++ n
  else d ++ '/' :: n

/-- `rename_file(old_name, new_name, dir_path)` from `downloader.py`,
acting on the set of existing file paths.  `os_error` models whether the
underlying `os.rename` raises `OSError`; the source swallows that
exception and returns `None`.  Returns the value `rename_file` returns
(`new_file` on success, `None` otherwise) together with the resulting
file set. -/
def rename_file (os_error : Bool) (files : Finset (List Char))
    (old_name new_name : List Char) (dir_path : List Char) :
    Option (List Char) × Finset (List Char) :=
  let old_file := if dir_path ≠ [] then os_path_join dir_path old_name
                  else old_name
  let new_file := if dir_path ≠ [] then os_path_join dir_path new_name
                  else new_name
  if old_file ∈ files then
    if os_error then (none, files)
    else (some new_file, insert new_file (files.erase old_file))
  else (none, files)

/-- The maximal trailing run of ASCII digits of a string: the match of
`re.search(r'[0-9]{1,}$', key)` in `get_filename` (empty when the regex
does not match). -/
def trailingDigits (l : List Char) : List Char :=
  (l.reverse.takeWhile Char.isDigit).reverse

/-- Program state threaded through the embedding: the module-level
registry `get_key.keys`, the set of existing file paths, plus
instrumentation recording the file paths passed to `write_file`, the
successful `os.rename` events, and the lines printed. -/
structure St where
  keys : List (List Char × Nat)
  files : Finset (List Char)
  writes : List (List Char)
  renames : List (List Char × List Char)
  log : List (List Char)
deriving DecidableEq

/-- The initial state: empty registry (`get_key.keys = dict()`), no files,
nothing written, renamed or printed. -/
def St.init : St := ⟨[], ∅, [], [], []⟩

/-- The key-allocation and reconciliation part of the nested helper
`get_filename(card, alt)` of `save_card_image`, acting on the card as it
stands after a truthy qualifier has been appended: allocate a key via
`get_key`, and if the allocated key ends in a digit run whose value is 2,
rename the previously written unsuffixed file to carry suffix `1`.
Returns the full path for the new file and the new state. -/
def get_filename_core (dir_path set_name : List Char) (st : St)
    (card1 : CardN) : List Char × St :=
  let kk := get_key st.keys card1 set_name
  let key := kk.1
  let td := trailingDigits key
  if td ≠ [] ∧ digitsVal td = 2 then
    let original := key.dropLast
    let old_nm := original ++ ".full.jpg".data
    let new_nm := (original ++ ['1']) ++ ".full.jpg".data
    let rr := rename_file false st.files old_nm new_nm dir_path
    let ren := match rr.1 with
      | some nf => [(os_path_join dir_path old_nm, nf)]
      | none => []
    (os_path_join dir_path (key ++ ".full.jpg".data),
      { st with keys := kk.2, files := rr.2, renames := st.renames ++ ren })
  else
    (os_path_join dir_path (key ++ ".full.jpg".data),
      { st with keys := kk.2 })

/-- The nested helper `get_filename(card, alt)` of `save_card_image`:
temporarily append a truthy qualifier `alt` to the card's name, run the
allocation/reconciliation core, and restore the name.  Returns the full
path for the new file, the new state, and the card as the helper leaves
it. -/
def get_filename (dir_path set_name : List Char) (st : St) (card : CardN)
    (alt : Option (List Char)) : List Char × St × CardN :=
  let truthy : Bool := match alt with
    | some a => !a.isEmpty
    | none => false
  let card1 := if truthy then { card with name := card.name ++ alt.getD [] }
               else card
  let card2 := if truthy then { card1 with name := card.name } else card1
  let ps := get_filename_core dir_path set_name st card1
  (ps.1, ps.2, card2)

/-- `write_file(url, file_path)`: create or truncate the file at
`file_path` (downloading is outside the model); records the write. -/
def write_file (st : St) (file_path : List Char) : St :=
  { st with files := insert file_path st.files,
            writes := st.writes ++ [file_path] }

/-- Python `str.upper()` (ASCII fragment). -/
def pyUpper (l : List Char) : List Char :=
  l.map Char.toUpper

/-- One face of a multi-face card: its `'name'` and, when present, its
`'image_uris']['large']` URL.  Accessing a missing `image_uris` raises
`KeyError` in Python, modelled as an `Except.error` below. -/
structure Face where
  name : List Char
  image_uris : Option (List Char)
deriving DecidableEq

/-- A card payload: the fields of the Scryfall card dict that
`save_card_image` reads.  `Option` marks fields whose presence the source
tests with `in` (or whose absence raises `KeyError`). -/
structure Card where
  set : List Char
  set_name : List Char
  name : List Char
  layout : Option (List Char)
  card_faces : Option (List Face)
  image_uris : Option (List Char)
deriving DecidableEq

/-- The `KeyError` raised by `card['image_uris']` (or a face's) when the
key is missing, as the message Python would carry. -/
def keyErrorImageUris : List Char := "KeyError: image_uris".data

/-- Fetch `x['image_uris']['large']`; a missing `image_uris` raises. -/
def getLargeUri (uris : Option (List Char)) :
    Except (List Char) (List Char) :=
  match uris with
  | some u => .ok u
  | none => .error keyErrorImageUris

/-- The `print(f" saved {set_name}:{card['name']}")` line. -/
def savedMsg (set_name name : List Char) : List Char :=
  " saved ".data ++ set_name ++ ':' :: name

/-- The `print(f"No valid image found for card: {card['name']}")` line. -/
def noImageMsg (name : List Char) : List Char :=
  "No valid image found for card: ".data ++ name

/-- Sequentially allocate filenames for a list of faces and write each
(the `for card_face in card['card_faces']` loop of the default/transform
branch).  Python evaluates `card_face['image_uris']['large']` before
calling `get_filename`, so a missing face image raises before the
registry is touched for that face. -/
def writeFaces (dir_path set_name : List Char) :
    St → List Face → St × Except (List Char) Unit
  | st, [] => (st, .ok ())
  | st, f :: rest =>
    match getLargeUri f.image_uris with
    | .error e => (st, .error e)
    | .ok _ =>
      let (p, st1, _) := get_filename dir_path set_name st ⟨f.name⟩ none
      let st2 := write_file st1 p
      writeFaces dir_path set_name st2 rest

/-- The sanitized set directory name `save_card_image` computes:
`get_valid_filename(card['set'].upper())`, or
`get_valid_filename(card['set_name'])` when set names are requested. -/
def setDirName (card : Card) (use_set_names : Bool) : List Char :=
  if use_set_names then get_valid_filename card.set_name
  else get_valid_filename (pyUpper card.set)

/-- `save_card_image(output_dir, card, use_set_names)` from
`downloader.py`.  Returns the state as the call leaves it together with
either the `(saved, not_saved)` counts or the exception that escaped. -/
def save_card_image (output_dir : List Char) (st : St) (card : Card)
    (use_set_names : Bool) : St × Except (List Char) (Nat × Nat) :=
  let set_name := setDirName card use_set_names
  let dir_path := os_path_join output_dir set_name
  match card.card_faces with
  | some faces =>
    if h : faces.length > 0 then
      if card.layout = some "adventure".data then
        match getLargeUri card.image_uris with
        | .error e => (st, .error e)
        | .ok _ =>
          let f0 := faces.get ⟨0, h⟩
          let (p, st1, _) := get_filename dir_path set_name st ⟨f0.name⟩ none
          let st2 := write_file st1 p
          ({ st2 with log := st2.log ++ [savedMsg set_name card.name] },
            .ok (1, 0))
      else if card.layout = some "split".data then
        match getLargeUri card.image_uris with
        | .error e => (st, .error e)
        | .ok _ =>
          let f0 := faces.get ⟨0, h⟩
          match faces.get? 1 with
          | none => (st, .error "IndexError".data)
          | some f1 =>
            let (p, st1, _) :=
              get_filename dir_path set_name st ⟨f0.name⟩ (some f1.name)
            let st2 := write_file st1 p
            ({ st2 with log := st2.log ++ [savedMsg set_name card.name] },
              .ok (1, 0))
      else if card.layout = some "flip".data then
        let f0 := faces.get ⟨0, h⟩
        let (p0, st1, _) := get_filename dir_path set_name st ⟨f0.name⟩ none
        match getLargeUri card.image_uris with
        | .error e => (st1, .error e)
        | .ok _ =>
          let st2 := write_file st1 p0
          match faces.get? 1 with
          | none => (st2, .error "IndexError".data)
          | some f1 =>
            let (p1, st3, _) :=
              get_filename dir_path set_name st2 ⟨f1.name⟩ none
            let st4 := write_file st3 p1
            ({ st4 with log := st4.log ++ [savedMsg set_name card.name] },
              .ok (1, 0))
      else if card.layout = some "reversible_card".data then
        let f0 := faces.get ⟨0, h⟩
        match getLargeUri f0.image_uris with
        | .error e => (st, .error e)
        | .ok _ =>
          let (p0, st1, _) := get_filename dir_path set_name st ⟨f0.name⟩ none
          let st2 := write_file st1 p0
          match faces.get? 1 with
          | none => (st2, .error "IndexError".data)
          | some f1 =>
            match getLargeUri f1.image_uris with
            | .error e => (st2, .error e)
            | .ok _ =>
              let (p1, st3, _) :=
                get_filename dir_path set_name st2 ⟨f1.name⟩
                  (some "-bk".data)
              let st4 := write_file st3 p1
              ({ st4 with log := st4.log ++ [savedMsg set_name card.name] },
                .ok (1, 0))
      else
        match writeFaces dir_path set_name st faces with
        | (st1, .error e) => (st1, .error e)
        | (st1, .ok _) =>
          ({ st1 with log := st1.log ++ [savedMsg set_name card.name] },
            .ok (1, 0))
    else
      match card.image_uris with
      | some _ =>
        let (p, st1, _) := get_filename dir_path set_name st ⟨card.name⟩ none
        let st2 := write_file st1 p
        ({ st2 with log := st2.log ++ [savedMsg set_name card.name] },
          .ok (1, 0))
      | none =>
        ({ st with log := st.log ++ [noImageMsg card.name] }, .ok (0, 1))
  | none =>
    match card.image_uris with
    | some _ =>
      let (p, st1, _) := get_filename dir_path set_name st ⟨card.name⟩ none
      let st2 := write_file st1 p
      ({ st2 with log := st2.log ++ [savedMsg set_name card.name] },
        .ok (1, 0))
    | none =>
      ({ st with log := st.log ++ [noImageMsg card.name] }, .ok (0, 1))

/-- The `for card in res["data"]` loop of `get_card_data_and_download`,
together with the `try/except` that encloses it: cards are processed in
order, counts accumulate, and an exception escaping `save_card_image`
aborts the loop (it is caught outside, printed, and the counts so far are
returned).  The result is the final state, the `saved` and `not_saved`
totals, and the caught exception if one occurred. -/
def process_cards (output_dir : List Char) (use_set_names : Bool) :
    St → List Card → St × Nat × Nat × Option (List Char)
  | st, [] => (st, 0, 0, none)
  | st, card :: rest =>
    match save_card_image output_dir st card use_set_names with
    | (st1, .error e) => (st1, 0, 0, some e)
    | (st1, .ok (s, n)) =>
      let r := process_cards output_dir use_set_names st1 rest
      (r.1, s + r.2.1, n + r.2.2.1, r.2.2.2)

/-- Does a string end in an ASCII digit?  (The names for which the
`[0-9]{1,}$` check in `get_filename` can fire on a base name.) -/
def endsDigit (l : List Char) : Bool :=
  match l.getLast? with
  | some c => c.isDigit
  | none => false

/-- The full path `os.path.join(dir_path, n + ".full.jpg")` used for every
file this program writes or renames. -/
def fpath (dir_path n : List Char) : List Char :=
  os_path_join dir_path (n ++ ".full.jpg".data)

/-- One allocation inside a set directory: a call to `get_filename` with a
card name and optional qualifier, followed by the `write_file` at the
returned path — the step every branch of `save_card_image` performs for
every file it plans. -/
def alloc_step (dir_path set_name : List Char) (st : St)
    (e : List Char × Option (List Char)) : St :=
  let (p, st1, _) := get_filename dir_path set_name st ⟨e.1⟩ e.2
  write_file st1 p

/-- A sequence of allocations in one set directory. -/
def run_alloc (dir_path set_name : List Char) (st : St)
    (es : List (List Char × Option (List Char))) : St :=
  es.foldl (alloc_step dir_path set_name) st

/-- The effective card name an allocation hands to `get_key`: the raw name
with a truthy qualifier appended (`card['name'] += alt`). -/
def effName (e : List Char × Option (List Char)) : List Char :=
  match e.2 with
  | some a => if !a.isEmpty then e.1 ++ a else e.1
  | none => e.1

section DecimalLemmas

theorem natToDecAux_congr :
    ∀ f1 f2 n, n < f1 → n < f2 → natToDecAux f1 n = natToDecAux f2 n := by
  intro f1
  induction f1 with
  | zero => intro f2 n h1; omega
  | succ g ih =>
    intro f2 n h1 h2
    cases f2 with
    | zero => omega
    | succ h =>
      by_cases hn : n < 10
      · simp [natToDecAux, hn]
      · simp only [natToDecAux, hn, if_false]
        have hd : n / 10 < n := Nat.div_lt_self (by omega) (by omega)
        rw [ih h (n / 10) (by omega) (by omega)]

theorem natToDec_lt (n : Nat) (h : n < 10) : natToDec n = [decDigit n] := by
  simp [natToDec, natToDecAux, h]

theorem natToDec_ge (n : Nat) (h : 10 ≤ n) :
    natToDec n = natToDec (n / 10) ++ [decDigit (n % 10)] := by
  have hd : n / 10 < n := Nat.div_lt_self (by omega) (by omega)
  have h1 : natToDecAux (n + 1) n =
      natToDecAux n (n / 10) ++ [decDigit (n % 10)] := by
    simp [natToDecAux, Nat.not_lt.mpr h]
  show natToDecAux (n + 1) n = natToDecAux (n / 10 + 1) (n / 10) ++ _
  rw [h1, natToDecAux_congr n (n / 10 + 1) (n / 10) (by omega) (by omega)]

theorem decDigit_isDigit : ∀ n < 10, (decDigit n).isDigit = true := by
  decide

theorem natToDec_ne_nil (n : Nat) : natToDec n ≠ [] := by
  by_cases h : n < 10
  · rw [natToDec_lt n h]; simp
  · rw [natToDec_ge n (Nat.not_lt.mp h)]; simp

theorem natToDec_all_digits (n : Nat) :
    ∀ c ∈ natToDec n, c.isDigit = true := by
  induction n using Nat.strong_induction_on with
  | _ n ih =>
    by_cases h : n < 10
    · rw [natToDec_lt n h]
      intro c hc
      simp only [List.mem_singleton] at hc
      subst hc
      exact decDigit_isDigit n h
    · rw [natToDec_ge n (Nat.not_lt.mp h)]
      intro c hc
      rcases List.mem_append.mp hc with h1 | h2
      · exact ih (n / 10) (Nat.div_lt_self (by omega) (by omega)) c h1
      · simp only [List.mem_singleton] at h2
        subst h2
        exact decDigit_isDigit _ (Nat.mod_lt n (by omega))

theorem decDigit_inj : ∀ a < 10, ∀ b < 10, decDigit a = decDigit b → a = b := by
  decide

theorem natToDec_inj (a b : Nat) (h : natToDec a = natToDec b) : a = b := by
  induction a using Nat.strong_induction_on generalizing b with
  | _ a ih =>
    by_cases ha : a < 10 <;> by_cases hb : b < 10
    · rw [natToDec_lt a ha, natToDec_lt b hb] at h
      exact decDigit_inj a ha b hb (List.singleton_injective h)
    · exfalso
      rw [natToDec_lt a ha, natToDec_ge b (Nat.not_lt.mp hb)] at h
      have hl := congrArg List.length h
      simp only [List.length_singleton, List.length_append] at hl
      have hz : (natToDec (b / 10)).length = 0 := by omega
      exact natToDec_ne_nil _ (List.length_eq_zero.mp hz)
    · exfalso
      rw [natToDec_ge a (Nat.not_lt.mp ha), natToDec_lt b hb] at h
      have hl := congrArg List.length h
      simp only [List.length_singleton, List.length_append] at hl
      have hz : (natToDec (a / 10)).length = 0 := by omega
      exact natToDec_ne_nil _ (List.length_eq_zero.mp hz)
    · rw [natToDec_ge a (Nat.not_lt.mp ha), natToDec_ge b (Nat.not_lt.mp hb)] at h
      have h2 := List.append_inj h (by
        have la := congrArg List.length h
        simp at la
        omega)
      obtain ⟨hq, hr⟩ := h2
      have hq' : a / 10 = b / 10 :=
        ih (a / 10) (Nat.div_lt_self (by omega) (by omega)) _ hq
      have hr' : a % 10 = b % 10 := by
        have := List.singleton_injective hr
        exact decDigit_inj _ (Nat.mod_lt a (by omega)) _
          (Nat.mod_lt b (by omega)) this
      omega

theorem digitsVal_append_one (l : List Char) (c : Char) :
    digitsVal (l ++ [c]) = digitsVal l * 10 + (c.toNat - 48) := by
  simp [digitsVal, List.foldl_append]

theorem digitsVal_decDigit : ∀ n < 10, digitsVal [decDigit n] = n := by
  decide

theorem digitsVal_natToDec (n : Nat) : digitsVal (natToDec n) = n := by
  induction n using Nat.strong_induction_on with
  | _ n ih =>
    by_cases h : n < 10
    · rw [natToDec_lt n h]
      exact digitsVal_decDigit n h
    · rw [natToDec_ge n (Nat.not_lt.mp h), digitsVal_append_one,
        ih (n / 10) (Nat.div_lt_self (by omega) (by omega))]
      have h1 : decDigit (n % 10) = decDigit (n % 10) := rfl
      have h2 := digitsVal_decDigit (n % 10) (Nat.mod_lt n (by omega))
      simp [digitsVal] at h2
      omega

theorem natToDec_one : natToDec 1 = ['1'] := by decide

theorem natToDec_two : natToDec 2 = ['2'] := by decide

end DecimalLemmas

section TrailingDigitLemmas

theorem takeWhile_append_all {p : Char → Bool} (xs ys : List Char)
    (h : ∀ x ∈ xs, p x = true) :
    (xs ++ ys).takeWhile p = xs ++ ys.takeWhile p := by
  induction xs with
  | nil => simp
  | cons a as ih =>
    simp only [List.cons_append, List.takeWhile_cons, h a (by simp), if_true]
    rw [ih (fun x hx => h x (by simp [hx]))]

theorem takeWhile_eq_nil_of_head {p : Char → Bool} (l : List Char) (c : Char)
    (h : l.head? = some c) (hc : p c = false) : l.takeWhile p = [] := by
  cases l with
  | nil => simp
  | cons a as =>
    simp only [List.head?_cons, Option.some.injEq] at h
    subst h
    simp [List.takeWhile_cons, hc]

theorem takeWhile_digits_reverse_nil (a : List Char)
    (ha : endsDigit a = false) : a.reverse.takeWhile Char.isDigit = [] := by
  cases hl : a.getLast? with
  | none =>
    have h0 : a = [] := List.getLast?_eq_none_iff.mp hl
    subst h0; simp
  | some c =>
    have hrev : a.reverse.head? = some c := by
      rw [List.head?_reverse]; exact hl
    have hcd : c.isDigit = false := by
      unfold endsDigit at ha
      rw [hl] at ha
      exact ha
    exact takeWhile_eq_nil_of_head _ c hrev hcd

theorem trailingDigits_of_no_digit_end (a : List Char)
    (ha : endsDigit a = false) : trailingDigits a = [] := by
  unfold trailingDigits
  rw [takeWhile_digits_reverse_nil a ha]
  rfl

theorem trailingDigits_append (a b : List Char)
    (hb : ∀ c ∈ b, c.isDigit = true) (ha : endsDigit a = false) :
    trailingDigits (a ++ b) = b := by
  unfold trailingDigits
  rw [List.reverse_append,
    takeWhile_append_all b.reverse a.reverse
      (fun x hx => hb x (List.mem_reverse.mp hx)),
    takeWhile_digits_reverse_nil a ha]
  simp

theorem endsDigit_append_natToDec (b : List Char) (i : Nat) :
    endsDigit (b ++ natToDec i) = true := by
  have hnn := natToDec_ne_nil i
  unfold endsDigit
  rw [List.getLast?_append_of_ne_nil _ hnn]
  cases hl : (natToDec i).getLast? with
  | none =>
    exact absurd (List.getLast?_eq_none_iff.mp hl) hnn
  | some c =>
    have hx : c ∈ (natToDec i).getLast? := Option.mem_def.mpr hl
    obtain ⟨hne, hc⟩ := List.mem_getLast?_eq_getLast hx
    exact hc ▸ natToDec_all_digits i _ (List.getLast_mem hne)

theorem ne_append_natToDec (a b : List Char) (i : Nat)
    (ha : endsDigit a = false) : a ≠ b ++ natToDec i := by
  intro h
  rw [h] at ha
  rw [endsDigit_append_natToDec b i] at ha
  cases ha

theorem append_natToDec_inj (a b : List Char) (i j : Nat)
    (ha : endsDigit a = false) (hb : endsDigit b = false)
    (h : a ++ natToDec i = b ++ natToDec j) : a = b ∧ i = j := by
  have hta : trailingDigits (a ++ natToDec i) = natToDec i :=
    trailingDigits_append a _ (natToDec_all_digits i) ha
  have htb : trailingDigits (b ++ natToDec j) = natToDec j :=
    trailingDigits_append b _ (natToDec_all_digits j) hb
  have hd : natToDec i = natToDec j := by rw [← hta, ← htb, h]
  have hij : i = j := natToDec_inj i j hd
  subst hij
  rw [← hd] at h
  exact ⟨List.append_cancel_right h, rfl⟩

end TrailingDigitLemmas

section RegistryLemmas

theorem lookupK_setK_self (ks : List (List Char × Nat)) (k : List Char)
    (v : Nat) : lookupK (setK ks k v) k = some v := by
  induction ks with
  | nil => simp [setK, lookupK]
  | cons e rest ih =>
    obtain ⟨k', v'⟩ := e
    by_cases h : k' = k
    · subst h; simp [setK, lookupK]
    · simp [setK, lookupK, h, ih]

theorem lookupK_setK_ne (ks : List (List Char × Nat)) (k k' : List Char)
    (v : Nat) (h : k' ≠ k) : lookupK (setK ks k v) k' = lookupK ks k' := by
  induction ks with
  | nil =>
    simp only [setK, lookupK]
    rw [if_neg (fun hh : k = k' => h hh.symm)]
  | cons e rest ih =>
    obtain ⟨k0, v0⟩ := e
    by_cases h0 : k0 = k
    · subst h0
      simp only [setK, lookupK, if_pos rfl]
      rw [if_neg (fun hh : k0 = k' => h hh.symm),
        if_neg (fun hh : k0 = k' => h hh.symm)]
    · simp [setK, lookupK, h0, ih]

theorem sep_append_inj :
    ∀ a b u v : List Char, '/' ∉ a → '/' ∉ b →
      a ++ '/' :: u = b ++ '/' :: v → a = b ∧ u = v := by
  intro a
  induction a with
  | nil =>
    intro b u v _ hb h
    cases b with
    | nil => simpa using h
    | cons d bs =>
      simp only [List.nil_append, List.cons_append, List.cons.injEq] at h
      exact absurd (h.1 ▸ List.mem_cons_self d bs) hb
  | cons c as ih =>
    intro b u v ha hb h
    cases b with
    | nil =>
      simp only [List.cons_append, List.nil_append, List.cons.injEq] at h
      exact absurd (h.1 ▸ List.mem_cons_self c as) ha
    | cons d bs =>
      simp only [List.cons_append, List.cons.injEq] at h
      obtain ⟨hcd, hrest⟩ := h
      have := ih bs u v (fun hm => ha (List.mem_cons_of_mem c hm))
        (fun hm => hb (List.mem_cons_of_mem d hm)) hrest
      exact ⟨by rw [hcd, this.1], this.2⟩

theorem mkKey_inj (s1 s2 n1 n2 : List Char) (hs1 : '/' ∉ s1)
    (hs2 : '/' ∉ s2) (h : mkKey s1 n1 = mkKey s2 n2) :
    s1 = s2 ∧ n1 = n2 :=
  sep_append_inj s1 s2 n1 n2 hs1 hs2 h

theorem mkKey_inj_name (s n m : List Char) (h : mkKey s n = mkKey s m) :
    n = m := by
  unfold mkKey at h
  have h2 : '/' :: n = '/' :: m := List.append_cancel_left h
  simpa using h2

end RegistryLemmas

section SanitizerLemmas

theorem pyReplaceSep_cons_ne (c : Char) (rest : List Char)
    (hne : ∀ r, c = ' ' → rest = '/' :: '/' :: ' ' :: r → False) :
    pyReplaceSep (c :: rest) = c :: pyReplaceSep rest := by
  rw [pyReplaceSep]
  exact hne

theorem mem_pyReplaceSep {c : Char} {l : List Char}
    (h : c ∈ pyReplaceSep l) : c ∈ l := by
  induction l using pyReplaceSep.induct with
  | case1 rest ih =>
    simp only [pyReplaceSep] at h
    simp [ih h]
  | case2 c' rest hne ih =>
    rw [pyReplaceSep_cons_ne c' rest hne] at h
    rcases List.mem_cons.mp h with h1 | h2
    · simp [h1]
    · simp [ih h2]
  | case3 => simp [pyReplaceSep] at h

theorem mem_pyStrip {c : Char} {l : List Char} (h : c ∈ pyStrip l) :
    c ∈ l := by
  unfold pyStrip at h
  rw [List.mem_reverse] at h
  have h1 := (List.dropWhile_sublist (l := (l.dropWhile pyIsSpace).reverse)
    (p := pyIsSpace)).mem h
  rw [List.mem_reverse] at h1
  exact (List.dropWhile_sublist (l := l) (p := pyIsSpace)).mem h1

theorem mem_gvf_accepted {c : Char} {x : List Char}
    (h : c ∈ get_valid_filename x) : pyAccepted c = true :=
  (List.mem_filter.mp h).2

theorem slash_not_mem_gvf (x : List Char) : '/' ∉ get_valid_filename x := by
  intro h
  have h1 := mem_gvf_accepted h
  exact absurd h1 (by decide)

theorem pyReplaceSep_eq_self {l : List Char} (h : '/' ∉ l) :
    pyReplaceSep l = l := by
  induction l using pyReplaceSep.induct with
  | case1 rest ih => exact absurd (by simp) h
  | case2 c' rest hne ih =>
    rw [pyReplaceSep_cons_ne c' rest hne,
      ih (fun hm => h (List.mem_cons_of_mem c' hm))]
  | case3 => rfl

theorem filter_pyAccepted_eq_self {l : List Char}
    (h : ∀ c ∈ l, pyAccepted c = true) : l.filter pyAccepted = l :=
  List.filter_eq_self.mpr h

theorem gvf_idem_to_strip (x : List Char) :
    get_valid_filename (get_valid_filename x) =
      pyStrip (get_valid_filename x) := by
  have h1 : '/' ∉ pyStrip (get_valid_filename x) :=
    fun hm => slash_not_mem_gvf x (mem_pyStrip hm)
  show (pyReplaceSep (pyStrip (get_valid_filename x))).filter pyAccepted = _
  rw [pyReplaceSep_eq_self h1]
  exact filter_pyAccepted_eq_self
    (fun c hc => mem_gvf_accepted (mem_pyStrip hc))

theorem count_k_dropWhile (l : List Char) :
    ((l.dropWhile pyIsSpace).count 'k') = l.count 'k' := by
  conv_rhs => rw [← List.takeWhile_append_dropWhile (p := pyIsSpace) (l := l)]
  rw [List.count_append]
  have h0 : (l.takeWhile pyIsSpace).count 'k' = 0 := by
    rw [List.count_eq_zero]
    intro hm
    have := List.mem_takeWhile_imp hm
    exact absurd this (by decide)
  omega

theorem count_k_pyStrip (l : List Char) :
    (pyStrip l).count 'k' = l.count 'k' := by
  unfold pyStrip
  rw [List.count_reverse, count_k_dropWhile, List.count_reverse,
    count_k_dropWhile]

theorem count_k_pyReplaceSep (l : List Char) :
    (pyReplaceSep l).count 'k' = l.count 'k' := by
  induction l using pyReplaceSep.induct with
  | case1 rest ih =>
    simp only [pyReplaceSep]
    rw [ih]
    simp [List.count_cons]
  | case2 c' rest hne ih =>
    rw [pyReplaceSep_cons_ne c' rest hne, List.count_cons, List.count_cons,
      ih]
  | case3 => rfl

theorem count_k_filter (l : List Char) :
    (l.filter pyAccepted).count 'k' = l.count 'k' := by
  induction l with
  | nil => rfl
  | cons c rest ih =>
    by_cases h : c = 'k'
    · subst h
      rw [List.filter_cons_of_pos (by decide), List.count_cons,
        List.count_cons, ih]
    · rw [List.count_cons_of_ne (fun hh => h hh.symm)]
      by_cases hp : pyAccepted c = true
      · rw [List.filter_cons_of_pos hp,
          List.count_cons_of_ne (fun hh => h hh.symm), ih]
      · rw [List.filter_cons_of_neg (by simpa using hp), ih]

theorem count_k_gvf (x : List Char) :
    (get_valid_filename x).count 'k' = x.count 'k' := by
  unfold get_valid_filename
  rw [count_k_filter, count_k_pyReplaceSep, count_k_pyStrip]

theorem gvf_bk_ne (n : List Char) :
    get_valid_filename (n ++ "-bk".data) ≠ get_valid_filename n := by
  intro h
  have h1 := count_k_gvf (n ++ "-bk".data)
  have h2 := count_k_gvf n
  rw [h, h2, List.count_append] at h1
  have h3 : ("-bk".data).count 'k' = 1 := by decide
  omega

end SanitizerLemmas

section GetFilenameLemmas

/-- The name `get_key` sees inside `get_filename`: the card's name with a
truthy qualifier appended. -/
def effAlt (card : CardN) (alt : Option (List Char)) : List Char :=
  match alt with
  | some a => if !a.isEmpty then card.name ++ a else card.name
  | none => card.name

theorem get_key_absent (ks : List (List Char × Nat)) (card : CardN)
    (set_name : List Char)
    (h : lookupK ks (mkKey set_name (get_valid_filename card.name)) = none) :
    get_key ks card set_name =
      (get_valid_filename card.name,
        setK ks (mkKey set_name (get_valid_filename card.name)) 1) := by
  unfold get_key
  simp only []
  rw [h]

theorem get_key_present (ks : List (List Char × Nat)) (card : CardN)
    (set_name : List Char) (c : Nat)
    (h : lookupK ks (mkKey set_name (get_valid_filename card.name)) =
      some c) :
    get_key ks card set_name =
      (get_valid_filename card.name ++ natToDec (c + 1),
        setK ks (mkKey set_name (get_valid_filename card.name)) (c + 1)) := by
  unfold get_key
  simp only []
  rw [h]

theorem get_filename_eq_core (dir_path set_name : List Char) (st : St)
    (card : CardN) (alt : Option (List Char)) :
    get_filename dir_path set_name st card alt =
      ((get_filename_core dir_path set_name st ⟨effAlt card alt⟩).1,
        (get_filename_core dir_path set_name st ⟨effAlt card alt⟩).2,
        card) := by
  unfold get_filename effAlt
  rcases alt with _ | a
  · rfl
  · by_cases ht : a.isEmpty
    · simp [ht]
    · simp only [Option.getD_some, ht, Bool.not_false, if_true]

theorem get_filename_core_fresh (dir_path set_name : List Char) (st : St)
    (card1 : CardN)
    (h : lookupK st.keys
      (mkKey set_name (get_valid_filename card1.name)) = none)
    (hd : endsDigit (get_valid_filename card1.name) = false) :
    get_filename_core dir_path set_name st card1 =
      (fpath dir_path (get_valid_filename card1.name),
        { st with keys := setK st.keys (mkKey set_name (get_valid_filename card1.name)) 1 }) := by
  unfold get_filename_core
  rw [get_key_absent st.keys card1 set_name h]
  simp only [trailingDigits_of_no_digit_end _ hd]
  simp [fpath]

theorem get_filename_core_second (dir_path set_name : List Char) (st : St)
    (card1 : CardN)
    (h : lookupK st.keys
      (mkKey set_name (get_valid_filename card1.name)) = some 1)
    (hd : endsDigit (get_valid_filename card1.name) = false) :
    get_filename_core dir_path set_name st card1 =
      (fpath dir_path (get_valid_filename card1.name ++ ['2']),
        { st with
          keys := setK st.keys (mkKey set_name (get_valid_filename card1.name)) 2,
          files := (rename_file false st.files
            (get_valid_filename card1.name ++ ".full.jpg".data)
            ((get_valid_filename card1.name ++ ['1']) ++ ".full.jpg".data)
            dir_path).2,
          renames := st.renames ++
            match (rename_file false st.files
              (get_valid_filename card1.name ++ ".full.jpg".data)
              ((get_valid_filename card1.name ++ ['1']) ++ ".full.jpg".data)
              dir_path).1 with
            | some nf =>
              [(os_path_join dir_path
                  (get_valid_filename card1.name ++ ".full.jpg".data), nf)]
            | none => [] }) := by
  unfold get_filename_core
  rw [get_key_present st.keys card1 set_name 1 h]
  have h11 : (1 : Nat) + 1 = 2 := rfl
  simp only [h11, natToDec_two]
  have htd : trailingDigits (get_valid_filename card1.name ++ ['2']) =
      ['2'] :=
    trailingDigits_append _ _ (by intro c hc; simp at hc; subst hc; rfl) hd
  simp only [htd]
  have hcond : (¬(['2'] : List Char) = []) ∧ digitsVal ['2'] = 2 := by
    constructor
    · simp
    · rfl
  rw [if_pos hcond]
  simp only [List.dropLast_concat]
  rfl

theorem get_filename_core_later (dir_path set_name : List Char) (st : St)
    (card1 : CardN) (c : Nat) (hc : 2 ≤ c)
    (h : lookupK st.keys
      (mkKey set_name (get_valid_filename card1.name)) = some c)
    (hd : endsDigit (get_valid_filename card1.name) = false) :
    get_filename_core dir_path set_name st card1 =
      (fpath dir_path (get_valid_filename card1.name ++ natToDec (c + 1)),
        { st with keys := setK st.keys (mkKey set_name (get_valid_filename card1.name)) (c + 1) }) := by
  unfold get_filename_core
  rw [get_key_present st.keys card1 set_name c h]
  have htd : trailingDigits
      (get_valid_filename card1.name ++ natToDec (c + 1)) =
      natToDec (c + 1) :=
    trailingDigits_append _ _ (natToDec_all_digits (c + 1)) hd
  simp only [htd]
  have hcond : ¬(¬natToDec (c + 1) = [] ∧ digitsVal (natToDec (c + 1)) = 2) := by
    rw [digitsVal_natToDec]
    omega
  rw [if_neg hcond]
  rfl

end GetFilenameLemmas

section PathLemmas

theorem os_path_join_nil (x : List Char) : os_path_join [] x = x := by
  unfold os_path_join
  split
  · rfl
  · simp

theorem os_path_join_inj (dir : List Char) {x y : List Char}
    (hx : x.head? ≠ some '/') (hy : y.head? ≠ some '/')
    (h : os_path_join dir x = os_path_join dir y) : x = y := by
  unfold os_path_join at h
  rw [if_neg hx, if_neg hy] at h
  by_cases hd : dir = []
  · rwa [if_pos hd, if_pos hd] at h
  · rw [if_neg hd, if_neg hd] at h
    by_cases hl : dir.getLast? = some '/'
    · rw [if_pos hl, if_pos hl] at h
      exact List.append_cancel_left h
    · rw [if_neg hl, if_neg hl] at h
      have h2 := List.append_cancel_left h
      simpa using h2

theorem jpg_head_ne_slash (key : List Char) (hk : '/' ∉ key) :
    (key ++ ".full.jpg".data).head? ≠ some '/' := by
  cases key with
  | nil => simp
  | cons c cs =>
    simp only [List.cons_append, List.head?_cons]
    intro h
    have hc : c = '/' := by simpa using h
    exact hk (hc ▸ List.mem_cons_self c cs)

theorem fpath_inj (dir_path : List Char) {a b : List Char} (ha : '/' ∉ a)
    (hb : '/' ∉ b) (h : fpath dir_path a = fpath dir_path b) : a = b :=
  List.append_cancel_right
    (os_path_join_inj dir_path (jpg_head_ne_slash a ha)
      (jpg_head_ne_slash b hb) h)

theorem slash_not_mem_append_natToDec (n : List Char) (i : Nat)
    (hn : '/' ∉ n) : '/' ∉ n ++ natToDec i := by
  intro h
  rcases List.mem_append.mp h with h1 | h2
  · exact hn h1
  · exact absurd (natToDec_all_digits i '/' h2) (by decide)

theorem rename_file_eq (os_error : Bool) (files : Finset (List Char))
    (old_name new_name dir_path : List Char) :
    rename_file os_error files old_name new_name dir_path =
      (if os_path_join dir_path old_name ∈ files then
        (if os_error then (none, files)
         else (some (os_path_join dir_path new_name),
           insert (os_path_join dir_path new_name)
             (files.erase (os_path_join dir_path old_name))))
       else (none, files)) := by
  unfold rename_file
  by_cases hd : dir_path = []
  · subst hd
    simp [os_path_join_nil]
  · simp [hd]

end PathLemmas

section RunInvariant

/-- The on-disk contents a one-directory allocation run is expected to
leave: for a sanitized name with occurrence count 1 the unsuffixed file,
for counts ≥ 2 the files carrying decimal suffixes `1 .. count`. -/
def FileSpec (dir_path : List Char) (sd : List (List Char))
    (p : List Char) : Prop :=
  ∃ n, 0 < sd.count n ∧
    ((sd.count n = 1 ∧ p = fpath dir_path n) ∨
      (2 ≤ sd.count n ∧ ∃ i, 1 ≤ i ∧ i ≤ sd.count n ∧
        p = fpath dir_path (n ++ natToDec i)))

/-- Run invariant for a sequence of allocations in one set directory:
the registry holds exactly the occurrence counts of the sanitized names
allocated so far, the file set is exactly `FileSpec`, and the number of
files equals the number of allocations. -/
def Inv (dir_path set_name : List Char) (sd : List (List Char))
    (st : St) : Prop :=
  (∀ n : List Char, lookupK st.keys (mkKey set_name n) =
    if sd.count n = 0 then none else some (sd.count n)) ∧
  (∀ p : List Char, p ∈ st.files ↔ FileSpec dir_path sd p) ∧
  st.files.card = sd.length

theorem base_not_spec (dir_path : List Char) (sd : List (List Char))
    (hprev_d : ∀ n ∈ sd, endsDigit n = false)
    (hprev_s : ∀ n ∈ sd, '/' ∉ n)
    (m : List Char) (hm_s : '/' ∉ m) (hm_d : endsDigit m = false)
    (hc : sd.count m = 0) : ¬ FileSpec dir_path sd (fpath dir_path m) := by
  rintro ⟨n, hn0, hcase⟩
  have hn_mem : n ∈ sd := by
    rw [← List.count_pos_iff]
    exact hn0
  have hn_d := hprev_d n hn_mem
  have hn_s := hprev_s n hn_mem
  rcases hcase with ⟨hc1, hp⟩ | ⟨_, i, hi1, _, hp⟩
  · have hmn : m = n := fpath_inj dir_path hm_s hn_s hp
    rw [← hmn] at hc1
    omega
  · exact ne_append_natToDec m n i hm_d
      (fpath_inj dir_path hm_s
        (slash_not_mem_append_natToDec n i hn_s) hp)

theorem suffix_not_spec (dir_path : List Char) (sd : List (List Char))
    (hprev_d : ∀ n ∈ sd, endsDigit n = false)
    (hprev_s : ∀ n ∈ sd, '/' ∉ n)
    (m : List Char) (hm_s : '/' ∉ m) (hm_d : endsDigit m = false)
    (i : Nat) (hno : ¬(2 ≤ sd.count m ∧ i ≤ sd.count m)) :
    ¬ FileSpec dir_path sd (fpath dir_path (m ++ natToDec i)) := by
  rintro ⟨n, hn0, hcase⟩
  have hn_mem : n ∈ sd := by
    rw [← List.count_pos_iff]
    exact hn0
  have hn_d := hprev_d n hn_mem
  have hn_s := hprev_s n hn_mem
  rcases hcase with ⟨_, hp⟩ | ⟨hc2, i', _, hi'le, hp⟩
  · exact ne_append_natToDec n m i hn_d
      (fpath_inj dir_path hn_s
        (slash_not_mem_append_natToDec m i hm_s) hp.symm)
  · have heq : m ++ natToDec i = n ++ natToDec i' :=
      fpath_inj dir_path (slash_not_mem_append_natToDec m i hm_s)
        (slash_not_mem_append_natToDec n i' hn_s) hp
    obtain ⟨hmn, hii⟩ := append_natToDec_inj m n i i' hm_d hn_d heq
    subst hmn
    subst hii
    exact hno ⟨hc2, hi'le⟩

theorem effAlt_entry (e : List Char × Option (List Char)) :
    effAlt ⟨e.1⟩ e.2 = effName e := by
  obtain ⟨nm, alt⟩ := e
  cases alt <;> rfl

theorem alloc_step_eq (dir_path set_name : List Char) (st : St)
    (e : List Char × Option (List Char)) :
    alloc_step dir_path set_name st e =
      write_file (get_filename_core dir_path set_name st ⟨effName e⟩).2
        (get_filename_core dir_path set_name st ⟨effName e⟩).1 := by
  unfold alloc_step
  rw [get_filename_eq_core, effAlt_entry]

theorem count_append_single (sd : List (List Char)) (m n : List Char) :
    (sd ++ [m]).count n = sd.count n + (if n = m then 1 else 0) := by
  rw [List.count_append]
  congr 1
  by_cases h : n = m
  · subst h; simp
  · simp [h]

theorem Inv_step (dir_path set_name : List Char) (sd : List (List Char))
    (st : St) (e : List Char × Option (List Char))
    (hinv : Inv dir_path set_name sd st)
    (hprev_d : ∀ n ∈ sd, endsDigit n = false)
    (hprev_s : ∀ n ∈ sd, '/' ∉ n)
    (hed : endsDigit (get_valid_filename (effName e)) = false) :
    Inv dir_path set_name (sd ++ [get_valid_filename (effName e)])
      (alloc_step dir_path set_name st e) := by
  obtain ⟨hk, hf, hcard⟩ := hinv
  rw [alloc_step_eq]
  set m := get_valid_filename (effName e) with hm_def
  have hname : get_valid_filename (CardN.mk (effName e)).name = m := rfl
  have hm_s : '/' ∉ m := slash_not_mem_gvf _
  have hkey_ne : ∀ n : List Char, n ≠ m →
      mkKey set_name n ≠ mkKey set_name m :=
    fun n hnm h => hnm (mkKey_inj_name set_name n m h)
  rcases Nat.lt_or_ge (sd.count m) 1 with hc0 | hc1'
  · -- first occurrence of this name
    have hc0 : sd.count m = 0 := by omega
    have hlook : lookupK st.keys (mkKey set_name m) = none := by
      rw [hk m, if_pos hc0]
    have hgf := get_filename_core_fresh dir_path set_name st ⟨effName e⟩
      (hname ▸ hlook) (hname ▸ hed)
    rw [hgf]
    have hPnot : fpath dir_path m ∉ st.files := fun hmem =>
      base_not_spec dir_path sd hprev_d hprev_s m hm_s hed hc0
        ((hf _).mp hmem)
    refine ⟨?_, ?_, ?_⟩
    · intro n
      by_cases hnm : n = m
      · subst hnm
        show lookupK (setK st.keys (mkKey set_name m) 1) (mkKey set_name m) =
          _
        rw [lookupK_setK_self, count_append_single, hc0, if_pos rfl]
        simp
      · show lookupK (setK st.keys (mkKey set_name m) 1) (mkKey set_name n) =
          _
        rw [lookupK_setK_ne _ _ _ _ (hkey_ne n hnm), hk n,
          count_append_single, if_neg hnm]
        simp
    · intro p
      show p ∈ insert (fpath dir_path m) st.files ↔ _
      rw [Finset.mem_insert]
      constructor
      · rintro (rfl | hmem)
        · refine ⟨m, ?_, Or.inl ⟨?_, rfl⟩⟩ <;>
            (rw [count_append_single, hc0, if_pos rfl]; try omega)
        · obtain ⟨n, hn0, hcase⟩ := (hf p).mp hmem
          have hnm : n ≠ m := by
            intro h
            rw [h, hc0] at hn0
            omega
          exact ⟨n, by rwa [count_append_single, if_neg hnm, Nat.add_zero],
            by rwa [count_append_single, if_neg hnm, Nat.add_zero]⟩
      · rintro ⟨n, hn0, hcase⟩
        by_cases hnm : n = m
        · subst hnm
          rw [count_append_single, hc0, if_pos rfl] at hcase
          rcases hcase with ⟨_, rfl⟩ | ⟨h2, _⟩
          · exact Or.inl rfl
          · omega
        · rw [count_append_single, if_neg hnm, Nat.add_zero] at hn0 hcase
          exact Or.inr ((hf p).mpr ⟨n, hn0, hcase⟩)
    · show (insert (fpath dir_path m) st.files).card = _
      rw [Finset.card_insert_of_not_mem hPnot, hcard]
      simp
  · rcases Nat.lt_or_ge (sd.count m) 2 with hc1 | hc2
    · -- second occurrence: rename of the unsuffixed file, then suffix 2
      have hc1 : sd.count m = 1 := by omega
      have hlook : lookupK st.keys (mkKey set_name m) = some 1 := by
        rw [hk m, hc1, if_neg (by omega)]
      have hgf := get_filename_core_second dir_path set_name st ⟨effName e⟩
        (hname ▸ hlook) (hname ▸ hed)
      rw [hgf]
      have hP0mem : fpath dir_path m ∈ st.files :=
        (hf _).mpr ⟨m, by omega, Or.inl ⟨hc1, rfl⟩⟩
      have hP1not : fpath dir_path (m ++ natToDec 1) ∉ st.files :=
        fun hmem =>
          suffix_not_spec dir_path sd hprev_d hprev_s m hm_s hed 1
            (by omega) ((hf _).mp hmem)
      have hP2not : fpath dir_path (m ++ natToDec 2) ∉ st.files :=
        fun hmem =>
          suffix_not_spec dir_path sd hprev_d hprev_s m hm_s hed 2
            (by omega) ((hf _).mp hmem)
      have hren : rename_file false st.files
          (get_valid_filename (CardN.mk (effName e)).name ++ ".full.jpg".data)
          ((get_valid_filename (CardN.mk (effName e)).name ++ ['1']) ++
            ".full.jpg".data) dir_path =
          (some (fpath dir_path (m ++ ['1'])),
            insert (fpath dir_path (m ++ ['1']))
              (st.files.erase (fpath dir_path m))) := by
        rw [hname, rename_file_eq]
        have h0 : os_path_join dir_path (m ++ ".full.jpg".data) =
            fpath dir_path m := rfl
        have h1 : os_path_join dir_path ((m ++ ['1']) ++ ".full.jpg".data) =
            fpath dir_path (m ++ ['1']) := rfl
        rw [h0, h1, if_pos hP0mem]
        rfl
      rw [hren]
      have hone : (['1'] : List Char) = natToDec 1 := by decide
      have htwo : (['2'] : List Char) = natToDec 2 := by decide
      refine ⟨?_, ?_, ?_⟩
      · intro n
        by_cases hnm : n = m
        · subst hnm
          show lookupK (setK st.keys (mkKey set_name m) 2)
            (mkKey set_name m) = _
          rw [lookupK_setK_self, count_append_single, hc1, if_pos rfl]
          simp
        · show lookupK (setK st.keys (mkKey set_name m) 2)
            (mkKey set_name n) = _
          rw [lookupK_setK_ne _ _ _ _ (hkey_ne n hnm), hk n,
            count_append_single, if_neg hnm]
          simp
      · intro p
        show p ∈ insert (fpath dir_path (m ++ ['2']))
          (insert (fpath dir_path (m ++ ['1']))
            (st.files.erase (fpath dir_path m))) ↔ _
        rw [Finset.mem_insert, Finset.mem_insert, Finset.mem_erase]
        constructor
        · rintro (rfl | rfl | ⟨hne0, hmem⟩)
          · refine ⟨m, ?_, Or.inr ⟨?_, 2, by omega, ?_, by rw [htwo]⟩⟩ <;>
              (rw [count_append_single, hc1, if_pos rfl]; try omega)
          · refine ⟨m, ?_, Or.inr ⟨?_, 1, by omega, ?_, by rw [hone]⟩⟩ <;>
              (rw [count_append_single, hc1, if_pos rfl]; try omega)
          · obtain ⟨n, hn0, hcase⟩ := (hf p).mp hmem
            have hnm : n ≠ m := by
              intro h
              subst h
              rcases hcase with ⟨_, rfl⟩ | ⟨h2, _⟩
              · exact hne0 rfl
              · omega
            exact ⟨n, by rwa [count_append_single, if_neg hnm, Nat.add_zero],
              by rwa [count_append_single, if_neg hnm, Nat.add_zero]⟩
        · rintro ⟨n, hn0, hcase⟩
          by_cases hnm : n = m
          · subst hnm
            rw [count_append_single, hc1, if_pos rfl] at hcase
            rcases hcase with ⟨h1, _⟩ | ⟨_, i, hi1, hile, rfl⟩
            · omega
            · have : i = 1 ∨ i = 2 := by omega
              rcases this with rfl | rfl
              · rw [← hone]
                exact Or.inr (Or.inl rfl)
              · rw [← htwo]
                exact Or.inl rfl
          · rw [count_append_single, if_neg hnm, Nat.add_zero] at hn0 hcase
            have hn_mem : n ∈ sd := List.count_pos_iff.mp hn0
            have hpmem : p ∈ st.files := (hf p).mpr ⟨n, hn0, hcase⟩
            have hne0 : p ≠ fpath dir_path m := by
              intro h
              subst h
              rcases hcase with ⟨_, hp⟩ | ⟨_, i, _, _, hp⟩
              · exact hnm (fpath_inj dir_path hm_s (hprev_s n hn_mem)
                  hp).symm
              · exact ne_append_natToDec m n i hed
                  (fpath_inj dir_path hm_s
                    (slash_not_mem_append_natToDec n i (hprev_s n hn_mem))
                    hp)
            exact Or.inr (Or.inr ⟨hne0, hpmem⟩)
      · show (insert (fpath dir_path (m ++ ['2']))
          (insert (fpath dir_path (m ++ ['1']))
            (st.files.erase (fpath dir_path m)))).card = _
        have hsub1 : fpath dir_path (m ++ ['1']) ∉
            st.files.erase (fpath dir_path m) := by
          intro h
          exact hP1not (hone ▸ Finset.mem_of_mem_erase h)
        have hsub2 : fpath dir_path (m ++ ['2']) ∉
            insert (fpath dir_path (m ++ ['1']))
              (st.files.erase (fpath dir_path m)) := by
          intro h
          rcases Finset.mem_insert.mp h with heq | h2
          · have := fpath_inj dir_path
              (by rw [htwo]; exact slash_not_mem_append_natToDec m 2 hm_s)
              (by rw [hone]; exact slash_not_mem_append_natToDec m 1 hm_s)
              heq
            have h21 := List.append_cancel_left this
            exact absurd h21 (by decide)
          · exact hP2not (htwo ▸ Finset.mem_of_mem_erase h2)
        rw [Finset.card_insert_of_not_mem hsub2,
          Finset.card_insert_of_not_mem hsub1,
          Finset.card_erase_of_mem hP0mem, hcard]
        have hpos : 0 < sd.length :=
          List.length_pos.mpr (List.ne_nil_of_mem (List.count_pos_iff.mp
            (show 0 < sd.count m by omega)))
        simp only [List.length_append, List.length_singleton]
        omega
    · -- third or later occurrence: plain numeric suffix, no rename
      have hlook : lookupK st.keys (mkKey set_name m) = some (sd.count m) := by
        rw [hk m, if_neg (by omega)]
      have hgf := get_filename_core_later dir_path set_name st ⟨effName e⟩
        (sd.count m) hc2 (hname ▸ hlook) (hname ▸ hed)
      rw [hgf]
      have hPnot : fpath dir_path (m ++ natToDec (sd.count m + 1)) ∉
          st.files := fun hmem =>
        suffix_not_spec dir_path sd hprev_d hprev_s m hm_s hed
          (sd.count m + 1) (by omega) ((hf _).mp hmem)
      refine ⟨?_, ?_, ?_⟩
      · intro n
        by_cases hnm : n = m
        · subst hnm
          show lookupK (setK st.keys (mkKey set_name m) (sd.count m + 1))
            (mkKey set_name m) = _
          rw [lookupK_setK_self, count_append_single, if_pos rfl]
          rw [if_neg (by omega)]
        · show lookupK
            (setK st.keys (mkKey set_name m) (sd.count m + 1))
            (mkKey set_name n) = _
          rw [lookupK_setK_ne _ _ _ _ (hkey_ne n hnm), hk n,
            count_append_single, if_neg hnm]
          simp
      · intro p
        show p ∈ insert (fpath dir_path (m ++ natToDec (sd.count m + 1)))
          st.files ↔ _
        rw [Finset.mem_insert]
        constructor
        · rintro (rfl | hmem)
          · refine ⟨m, ?_, Or.inr ⟨?_, sd.count m + 1, by omega, ?_, rfl⟩⟩ <;>
              rw [count_append_single, if_pos rfl] <;> omega
          · obtain ⟨n, hn0, hcase⟩ := (hf p).mp hmem
            by_cases hnm : n = m
            · subst hnm
              rcases hcase with ⟨h1, _⟩ | ⟨_, i, hi1, hile, rfl⟩
              · omega
              · refine ⟨m, ?_, Or.inr ⟨?_, i, hi1, ?_, rfl⟩⟩ <;>
                  rw [count_append_single, if_pos rfl] <;> omega
            · exact ⟨n,
                by rwa [count_append_single, if_neg hnm, Nat.add_zero],
                by rwa [count_append_single, if_neg hnm, Nat.add_zero]⟩
        · rintro ⟨n, hn0, hcase⟩
          by_cases hnm : n = m
          · subst hnm
            rw [count_append_single, if_pos rfl] at hcase
            rcases hcase with ⟨h1, _⟩ | ⟨_, i, hi1, hile, rfl⟩
            · omega
            · rcases Nat.lt_or_ge i (sd.count m + 1) with hlt | hge
              · exact Or.inr ((hf _).mpr ⟨m, by omega,
                  Or.inr ⟨hc2, i, hi1, by omega, rfl⟩⟩)
              · have : i = sd.count m + 1 := by omega
                subst this
                exact Or.inl rfl
          · rw [count_append_single, if_neg hnm, Nat.add_zero] at hn0 hcase
            exact Or.inr ((hf p).mpr ⟨n, hn0, hcase⟩)
      · show (insert (fpath dir_path (m ++ natToDec (sd.count m + 1)))
          st.files).card = _
        rw [Finset.card_insert_of_not_mem hPnot, hcard]
        simp

theorem run_alloc_cons (dir_path set_name : List Char) (st : St)
    (e : List Char × Option (List Char))
    (es : List (List Char × Option (List Char))) :
    run_alloc dir_path set_name st (e :: es) =
      run_alloc dir_path set_name (alloc_step dir_path set_name st e) es :=
  rfl

theorem Inv_run (dir_path set_name : List Char)
    (es : List (List Char × Option (List Char))) :
    ∀ (sd : List (List Char)) (st : St),
      Inv dir_path set_name sd st →
      (∀ n ∈ sd, endsDigit n = false) →
      (∀ n ∈ sd, '/' ∉ n) →
      (∀ e ∈ es, endsDigit (get_valid_filename (effName e)) = false) →
      Inv dir_path set_name
        (sd ++ es.map (fun e => get_valid_filename (effName e)))
        (run_alloc dir_path set_name st es) := by
  induction es with
  | nil =>
    intro sd st hinv _ _ _
    simpa using hinv
  | cons e es ih =>
    intro sd st hinv hpd hps hes
    rw [run_alloc_cons]
    have hstep := Inv_step dir_path set_name sd st e hinv hpd hps
      (hes e (by simp))
    have h1 := ih (sd ++ [get_valid_filename (effName e)])
      (alloc_step dir_path set_name st e) hstep
      (by
        intro n hn
        rcases List.mem_append.mp hn with h | h
        · exact hpd n h
        · simp only [List.mem_singleton] at h
          subst h
          exact hes e (by simp))
      (by
        intro n hn
        rcases List.mem_append.mp hn with h | h
        · exact hps n h
        · simp only [List.mem_singleton] at h
          subst h
          exact slash_not_mem_gvf _)
      (fun e' he' => hes e' (by simp [he']))
    simpa [List.append_assoc] using h1

theorem Inv_init (dir_path set_name : List Char) :
    Inv dir_path set_name [] St.init := by
  refine ⟨?_, ?_, ?_⟩
  · intro n
    simp [St.init, lookupK]
  · intro p
    simp [St.init, FileSpec]
  · simp [St.init]

theorem run_alloc_card (dir_path set_name : List Char)
    (es : List (List Char × Option (List Char)))
    (hes : ∀ e ∈ es, endsDigit (get_valid_filename (effName e)) = false) :
    (run_alloc dir_path set_name St.init es).files.card = es.length := by
  have h := Inv_run dir_path set_name es [] St.init
    (Inv_init dir_path set_name) (by simp) (by simp) hes
  have h3 := h.2.2
  simpa using h3

end RunInvariant

section KeyIteration

/-- The registry after `j` consecutive `get_key` calls with the same card
and set name. -/
def get_key_iter (ks : List (List Char × Nat)) (card : CardN)
    (set_name : List Char) : Nat → List (List Char × Nat)
  | 0 => ks
  | j + 1 => (get_key (get_key_iter ks card set_name j) card set_name).2

/-- The name returned by the k-th consecutive `get_key` call (k ≥ 1). -/
def get_key_nth (ks : List (List Char × Nat)) (card : CardN)
    (set_name : List Char) (k : Nat) : List Char :=
  (get_key (get_key_iter ks card set_name (k - 1)) card set_name).1

theorem get_key_iter_lookup (ks : List (List Char × Nat)) (card : CardN)
    (set_name : List Char)
    (h : lookupK ks (mkKey set_name (get_valid_filename card.name)) = none) :
    ∀ j, lookupK (get_key_iter ks card set_name j)
      (mkKey set_name (get_valid_filename card.name)) =
      if j = 0 then none else some j := by
  intro j
  induction j with
  | zero => simpa using h
  | succ i ihj =>
    show lookupK
      (get_key (get_key_iter ks card set_name i) card set_name).2 _ = _
    by_cases hi : i = 0
    · subst hi
      rw [get_key_absent _ _ _ (by simpa using ihj)]
      simp [lookupK_setK_self]
    · rw [get_key_present _ _ _ i (by simpa [hi] using ihj)]
      simp [lookupK_setK_self]

theorem get_key_nth_first (ks : List (List Char × Nat)) (card : CardN)
    (set_name : List Char)
    (h : lookupK ks (mkKey set_name (get_valid_filename card.name)) = none) :
    get_key_nth ks card set_name 1 = get_valid_filename card.name := by
  unfold get_key_nth
  show (get_key ks card set_name).1 = _
  rw [get_key_absent _ _ _ h]

theorem get_key_nth_later (ks : List (List Char × Nat)) (card : CardN)
    (set_name : List Char)
    (h : lookupK ks (mkKey set_name (get_valid_filename card.name)) = none)
    (k : Nat) (hk : 2 ≤ k) :
    get_key_nth ks card set_name k =
      get_valid_filename card.name ++ natToDec k := by
  unfold get_key_nth
  have hl := get_key_iter_lookup ks card set_name h (k - 1)
  rw [if_neg (by omega)] at hl
  rw [get_key_present _ _ _ (k - 1) hl]
  have hkk : k - 1 + 1 = k := by omega
  rw [hkk]

end KeyIteration

section RenameRun

theorem alloc_step_simple (dir_path set_name : List Char) (st : St)
    (raw : List Char) :
    alloc_step dir_path set_name st (raw, none) =
      write_file (get_filename_core dir_path set_name st ⟨raw⟩).2
        (get_filename_core dir_path set_name st ⟨raw⟩).1 :=
  alloc_step_eq dir_path set_name st (raw, none)

theorem run_alloc_renames_later (dir_path set_name raw : List Char)
    (hd : endsDigit (get_valid_filename raw) = false) :
    ∀ (j : Nat) (st : St) (c : Nat), 2 ≤ c →
      lookupK st.keys (mkKey set_name (get_valid_filename raw)) = some c →
      (run_alloc dir_path set_name st
        (List.replicate j (raw, none))).renames = st.renames := by
  intro j
  induction j with
  | zero =>
    intro st c _ _
    rfl
  | succ i ih =>
    intro st c hc hl
    rw [List.replicate_succ, run_alloc_cons, alloc_step_simple,
      get_filename_core_later dir_path set_name st ⟨raw⟩ c hc hl hd]
    have h2 := ih (write_file
      { st with keys := setK st.keys (mkKey set_name (get_valid_filename raw)) (c + 1) }
      (fpath dir_path (get_valid_filename raw ++ natToDec (c + 1))))
      (c + 1) (by omega) (by
        show lookupK
          (setK st.keys (mkKey set_name (get_valid_filename raw)) (c + 1))
          (mkKey set_name (get_valid_filename raw)) = some (c + 1)
        exact lookupK_setK_self _ _ _)
    exact h2

theorem run_alloc_renames (dir_path set_name raw : List Char) (st : St)
    (N : Nat)
    (h : lookupK st.keys (mkKey set_name (get_valid_filename raw)) = none)
    (hd : endsDigit (get_valid_filename raw) = false) (hN : 1 ≤ N) :
    (run_alloc dir_path set_name st
      (List.replicate N (raw, none))).renames =
      st.renames ++
        (if 2 ≤ N then
          [(fpath dir_path (get_valid_filename raw),
            fpath dir_path (get_valid_filename raw ++ ['1']))]
         else []) := by
  obtain ⟨M, rfl⟩ : ∃ M, N = M + 1 := ⟨N - 1, by omega⟩
  rw [List.replicate_succ, run_alloc_cons, alloc_step_simple,
    get_filename_core_fresh dir_path set_name st ⟨raw⟩ h hd]
  cases M with
  | zero =>
    rw [if_neg (by omega)]
    simp [run_alloc, write_file]
  | succ M2 =>
    rw [if_pos (by omega)]
    rw [List.replicate_succ, run_alloc_cons, alloc_step_simple]
    have hl1 : lookupK (write_file
        { st with keys := setK st.keys (mkKey set_name (get_valid_filename raw)) 1 }
        (fpath dir_path (get_valid_filename raw))).keys
        (mkKey set_name (get_valid_filename raw)) = some 1 := by
      show lookupK
        (setK st.keys (mkKey set_name (get_valid_filename raw)) 1)
        (mkKey set_name (get_valid_filename raw)) = some 1
      exact lookupK_setK_self _ _ _
    rw [get_filename_core_second dir_path set_name _ ⟨raw⟩ hl1 hd]
    have hren : rename_file false (write_file
        { st with keys := setK st.keys (mkKey set_name (get_valid_filename raw)) 1 }
        (fpath dir_path (get_valid_filename raw))).files
        (get_valid_filename (CardN.mk raw).name ++ ".full.jpg".data)
        ((get_valid_filename (CardN.mk raw).name ++ ['1']) ++
          ".full.jpg".data) dir_path =
        (some (fpath dir_path (get_valid_filename raw ++ ['1'])),
          insert (fpath dir_path (get_valid_filename raw ++ ['1']))
            ((insert (fpath dir_path (get_valid_filename raw))
              st.files).erase (fpath dir_path (get_valid_filename raw)))) := by
      rw [rename_file_eq]
      have h0 : os_path_join dir_path
          (get_valid_filename (CardN.mk raw).name ++ ".full.jpg".data) =
          fpath dir_path (get_valid_filename raw) := rfl
      have h1 : os_path_join dir_path
          ((get_valid_filename (CardN.mk raw).name ++ ['1']) ++
            ".full.jpg".data) =
          fpath dir_path (get_valid_filename raw ++ ['1']) := rfl
      rw [h0, h1]
      rw [if_pos (by
        show fpath dir_path (get_valid_filename raw) ∈
          insert (fpath dir_path (get_valid_filename raw)) st.files
        exact Finset.mem_insert_self _ _)]
      simp [write_file]
    rw [hren]
    refine (run_alloc_renames_later dir_path set_name raw hd M2 _ 2
      (by omega) ?_).trans ?_
    · show lookupK
        (setK (setK st.keys (mkKey set_name (get_valid_filename raw)) 1)
          (mkKey set_name (get_valid_filename raw)) 2)
        (mkKey set_name (get_valid_filename raw)) = some 2
      exact lookupK_setK_self _ _ _
    · rfl

end RenameRun

section SaveLemmas

theorem get_filename_core_writes (dir_path set_name : List Char) (st : St)
    (card1 : CardN) :
    ((get_filename_core dir_path set_name st card1).2).writes =
      st.writes := by
  unfold get_filename_core
  by_cases h : (¬trailingDigits (get_key st.keys card1 set_name).1 = []) ∧
      digitsVal (trailingDigits (get_key st.keys card1 set_name).1) = 2
  · rw [if_pos h]
  · rw [if_neg h]

theorem get_filename_writes (dir_path set_name : List Char) (st : St)
    (card : CardN) (alt : Option (List Char)) :
    ((get_filename dir_path set_name st card alt).2.1).writes =
      st.writes := by
  rw [get_filename_eq_core]
  exact get_filename_core_writes dir_path set_name st _

theorem save_card_image_no_image (output_dir : List Char) (st : St)
    (card : Card) (use_set_names : Bool)
    (hfc : card.card_faces = none ∨ card.card_faces = some [])
    (hu : card.image_uris = none) :
    save_card_image output_dir st card use_set_names =
      ({ st with log := st.log ++ [noImageMsg card.name] },
        Except.ok (0, 1)) := by
  unfold save_card_image
  rcases hfc with hfc | hfc <;> (rw [hfc, hu]; try rfl)

theorem process_cards_cons_ok (output_dir : List Char)
    (use_set_names : Bool) (st st1 : St) (card : Card) (rest : List Card)
    (s n : Nat)
    (h : save_card_image output_dir st card use_set_names =
      (st1, Except.ok (s, n))) :
    process_cards output_dir use_set_names st (card :: rest) =
      ((process_cards output_dir use_set_names st1 rest).1,
        s + (process_cards output_dir use_set_names st1 rest).2.1,
        n + (process_cards output_dir use_set_names st1 rest).2.2.1,
        (process_cards output_dir use_set_names st1 rest).2.2.2) := by
  simp [process_cards, h]

theorem process_cards_error_stops (output_dir : List Char)
    (use_set_names : Bool) (st st1 : St) (card : Card) (rest : List Card)
    (e : List Char)
    (h : save_card_image output_dir st card use_set_names =
      (st1, Except.error e)) :
    process_cards output_dir use_set_names st (card :: rest) =
      (st1, 0, 0, some e) := by
  simp [process_cards, h]

theorem save_simple_eq (output_dir : List Char) (st : St) (card : Card)
    (use_set_names : Bool) (url : List Char)
    (hfc : card.card_faces = none) (hu : card.image_uris = some url) :
    save_card_image output_dir st card use_set_names =
      (let set_name := setDirName card use_set_names
       let dir_path := os_path_join output_dir set_name
       let r := get_filename dir_path set_name st ⟨card.name⟩ none
       let st2 := write_file r.2.1 r.1
       ({ st2 with log := st2.log ++ [savedMsg set_name card.name] },
         Except.ok (1, 0))) := by
  unfold save_card_image
  rw [hfc, hu]

theorem save_reversible_eq (output_dir : List Char) (st : St) (card : Card)
    (use_set_names : Bool) (f0 f1 : Face) (frest : List Face)
    (u0 u1 : List Char)
    (hfc : card.card_faces = some (f0 :: f1 :: frest))
    (hlay : card.layout = some "reversible_card".data)
    (hu0 : f0.image_uris = some u0) (hu1 : f1.image_uris = some u1) :
    save_card_image output_dir st card use_set_names =
      (let set_name := setDirName card use_set_names
       let dir_path := os_path_join output_dir set_name
       let r0 := get_filename dir_path set_name st ⟨f0.name⟩ none
       let st2 := write_file r0.2.1 r0.1
       let r1 := get_filename dir_path set_name st2 ⟨f1.name⟩
         (some "-bk".data)
       let st4 := write_file r1.2.1 r1.1
       ({ st4 with log := st4.log ++ [savedMsg set_name card.name] },
         Except.ok (1, 0))) := by
  unfold save_card_image
  rw [hfc, hlay]
  dsimp only
  rw [dif_pos (by simp : (f0 :: f1 :: frest).length > 0)]
  rw [if_neg (by decide :
    ¬(some "reversible_card".data = some "adventure".data))]
  rw [if_neg (by decide :
    ¬(some "reversible_card".data = some "split".data))]
  rw [if_neg (by decide :
    ¬(some "reversible_card".data = some "flip".data))]
  rw [if_pos rfl]
  simp only [show ∀ h : (f0 :: f1 :: frest).length > 0,
    (f0 :: f1 :: frest).get ⟨0, h⟩ = f0 from fun _ => rfl]
  rw [hu0]
  dsimp only [getLargeUri]
  rw [show (f0 :: f1 :: frest).get? 1 = some f1 from rfl]
  dsimp only
  rw [hu1]

theorem get_filename_core_fresh_parts (dir_path set_name : List Char)
    (st : St) (card1 : CardN)
    (h : lookupK st.keys
      (mkKey set_name (get_valid_filename card1.name)) = none) :
    (get_filename_core dir_path set_name st card1).1 =
      fpath dir_path (get_valid_filename card1.name) ∧
    ((get_filename_core dir_path set_name st card1).2).keys =
      setK st.keys (mkKey set_name (get_valid_filename card1.name)) 1 := by
  unfold get_filename_core
  rw [get_key_absent _ _ _ h]
  by_cases hc : (¬trailingDigits (get_valid_filename card1.name) = []) ∧
      digitsVal (trailingDigits (get_valid_filename card1.name)) = 2
  · rw [if_pos hc]
    exact ⟨rfl, rfl⟩
  · rw [if_neg hc]
    exact ⟨rfl, rfl⟩

theorem get_filename_fresh_parts (dir_path set_name : List Char) (st : St)
    (card : CardN) (alt : Option (List Char))
    (h : lookupK st.keys
      (mkKey set_name (get_valid_filename (effAlt card alt))) = none) :
    (get_filename dir_path set_name st card alt).1 =
      fpath dir_path (get_valid_filename (effAlt card alt)) ∧
    ((get_filename dir_path set_name st card alt).2.1).keys =
      setK st.keys (mkKey set_name (get_valid_filename (effAlt card alt)))
        1 := by
  rw [get_filename_eq_core]
  exact get_filename_core_fresh_parts dir_path set_name st ⟨effAlt card alt⟩
    h

end SaveLemmas

section Claims

/-- C1: for every `(set_id, name)` key and every sequence of consecutive
allocations of that key via `get_key` starting from a registry in which
the key is absent, the 1st occurrence returns the sanitized name
unchanged, and for every k ≥ 2 the k-th occurrence returns the sanitized
name with the decimal string of k appended. -/
theorem claim_C1 (ks : List (List Char × Nat)) (card : CardN)
    (set_name : List Char)
    (h : lookupK ks (mkKey set_name (get_valid_filename card.name)) =
      none) :
    get_key_nth ks card set_name 1 = get_valid_filename card.name ∧
    ∀ k, 2 ≤ k → get_key_nth ks card set_name k =
      get_valid_filename card.name ++ natToDec k :=
  ⟨get_key_nth_first ks card set_name h,
   fun k hk => get_key_nth_later ks card set_name h k hk⟩

/-- Witness for C1: three allocations of `(LTR, Island)` from the empty
registry yield `Island` and then `Island3` at the third occurrence. -/
theorem claim_C1_witness :
    lookupK [] (mkKey "LTR".data (get_valid_filename "Island".data)) =
      none ∧
    get_key_nth [] ⟨"Island".data⟩ "LTR".data 1 = "Island".data ∧
    get_key_nth [] ⟨"Island".data⟩ "LTR".data 3 = "Island3".data := by
  refine ⟨by decide, ?_, ?_⟩
  · have h := (claim_C1 [] ⟨"Island".data⟩ "LTR".data (by decide)).1
    rw [h]
    decide
  · have h := (claim_C1 [] ⟨"Island".data⟩ "LTR".data (by decide)).2 3
      (by omega)
    rw [h]
    decide

/-- C4 (counterexample): the sanitizer is not idempotent.  On `"? a"` the
first pass strips nothing (the string has no leading whitespace) and then
deletes `?`, leaving `" a"` with a leading space; the second pass strips
that space. -/
theorem claim_C4_counterexample :
    get_valid_filename (get_valid_filename "? a".data) ≠
      get_valid_filename "? a".data := by
  decide

/-- C4 (amended): applying the sanitizer twice equals applying it once and
then stripping leading/trailing whitespace; hence the sanitizer is
idempotent exactly on the inputs whose sanitized form has no leading or
trailing whitespace. -/
theorem claim_C4 (x : List Char) :
    get_valid_filename (get_valid_filename x) =
      pyStrip (get_valid_filename x) :=
  gvf_idem_to_strip x

/-- C5 (counterexample): the sanitizer keeps the underscore, which is
neither alphanumeric, nor a space, nor one of the accepted punctuation
marks `- . ; , : + '` named by the claim (Python's `\w` class includes
`_`). -/
theorem claim_C5_counterexample :
    '_' ∈ get_valid_filename ['_'] ∧
    ¬('_'.isAlphanum = true ∨ '_' = ' ' ∨
      '_' ∈ ['-', '.', ';', ',', ':', '+', '\'']) := by
  decide

/-- C5 (amended): every character of the sanitizer's output is
alphanumeric, an underscore, a space, or one of `- . ; , : + '`; every
character outside this set is removed. -/
theorem claim_C5 (x : List Char) (c : Char)
    (h : c ∈ get_valid_filename x) :
    c.isAlphanum = true ∨ c = '_' ∨ c = ' ' ∨
      c ∈ ['-', '.', ';', ',', ':', '+', '\''] := by
  have hacc := mem_gvf_accepted h
  unfold pyAccepted pyIsWord at hacc
  simp only [Bool.or_eq_true, decide_eq_true_eq] at hacc
  simp only [List.mem_cons, List.not_mem_nil, or_false]
  tauto

/-- Witness for C5 at a concrete input: `A` survives sanitization of
`"A?"` and is alphanumeric. -/
theorem claim_C5_witness :
    'A' ∈ get_valid_filename "A?".data ∧
    ('A'.isAlphanum = true ∨ 'A' = '_' ∨ 'A' = ' ' ∨
      'A' ∈ ['-', '.', ';', ',', ':', '+', '\'']) :=
  ⟨by decide, claim_C5 "A?".data 'A' (by decide)⟩

/-- C6: allocating a key via `get_key` under one set name changes no
registry entry of a different set name: for slash-free set directory names
(the form `save_card_image` always passes, since it sanitizes them), a
`get_key` call with set `s1` leaves the entry of `(s2, name)` unchanged
for every `s2 ≠ s1` — in particular the occurrence counters of two sets
sharing the same card name are independent. -/
theorem claim_C6 (ks : List (List Char × Nat)) (s1 s2 : List Char)
    (card other : CardN) (hs1 : '/' ∉ s1) (hs2 : '/' ∉ s2)
    (hne : s1 ≠ s2) :
    lookupK (get_key ks card s1).2
      (mkKey s2 (get_valid_filename other.name)) =
    lookupK ks (mkKey s2 (get_valid_filename other.name)) := by
  have hkne : mkKey s2 (get_valid_filename other.name) ≠
      mkKey s1 (get_valid_filename card.name) := by
    intro h
    exact hne (mkKey_inj s2 s1 _ _ hs2 hs1 h).1.symm
  unfold get_key
  simp only []
  cases hl : lookupK ks (mkKey s1 (get_valid_filename card.name)) with
  | none =>
    exact lookupK_setK_ne _ _ _ _ hkne
  | some c =>
    exact lookupK_setK_ne _ _ _ _ hkne

/-- Witness for C6: bumping `(AAA, Island)` leaves `(BBB, Island)`
absent. -/
theorem claim_C6_witness :
    ('/' ∉ "AAA".data ∧ '/' ∉ "BBB".data ∧ "AAA".data ≠ "BBB".data) ∧
    lookupK (get_key [] ⟨"Island".data⟩ "AAA".data).2
      (mkKey "BBB".data (get_valid_filename "Island".data)) =
    lookupK [] (mkKey "BBB".data (get_valid_filename "Island".data)) :=
  ⟨⟨by decide, by decide, by decide⟩,
   claim_C6 [] "AAA".data "BBB".data ⟨"Island".data⟩ ⟨"Island".data⟩
     (by decide) (by decide) (by decide)⟩

/-- C9: `rename_file` reports failure (`None`) without raising whenever
the old file does not exist or the underlying `os.rename` raises, leaving
the file set unchanged; when the old file exists and the rename succeeds
it returns the new path and the file set reflects the move.  (The model
is a single total evaluation: no retry can occur.) -/
theorem claim_C9 (files : Finset (List Char))
    (old_name new_name dir_path : List Char) (os_error : Bool) :
    (os_path_join dir_path old_name ∉ files ∨ os_error = true →
      rename_file os_error files old_name new_name dir_path =
        (none, files)) ∧
    (os_path_join dir_path old_name ∈ files → os_error = false →
      rename_file os_error files old_name new_name dir_path =
        (some (os_path_join dir_path new_name),
          insert (os_path_join dir_path new_name)
            (files.erase (os_path_join dir_path old_name)))) := by
  rw [rename_file_eq]
  constructor
  · rintro (h | h)
    · rw [if_neg h]
    · subst h
      by_cases hm : os_path_join dir_path old_name ∈ files
      · rw [if_pos hm, if_pos rfl]
      · rw [if_neg hm]
  · intro h1 h2
    subst h2
    rw [if_pos h1]
    simp

/-- Witness for C9: with only `d/x` on disk, renaming `x` to `y` in `d`
succeeds, and renaming the missing `z` fails silently. -/
theorem claim_C9_witness :
    (os_path_join "d".data "z".data ∉ ({"d".data ++ ('/' :: "x".data)} :
        Finset (List Char)) ∨ False = true) ∧
    rename_file false {"d".data ++ ('/' :: "x".data)} "z".data "y".data
      "d".data = (none, {"d".data ++ ('/' :: "x".data)}) ∧
    rename_file false {"d".data ++ ('/' :: "x".data)} "x".data "y".data
      "d".data =
      (some (os_path_join "d".data "y".data),
        insert (os_path_join "d".data "y".data)
          (({"d".data ++ ('/' :: "x".data)} : Finset (List Char)).erase
            (os_path_join "d".data "x".data))) := by
  refine ⟨Or.inl (by decide), ?_, ?_⟩
  · exact (claim_C9 {"d".data ++ ('/' :: "x".data)} "z".data "y".data
      "d".data false).1 (Or.inl (by decide))
  · exact (claim_C9 {"d".data ++ ('/' :: "x".data)} "x".data "y".data
      "d".data false).2 (by decide) rfl

/-- C10: the naming helper `get_filename` always hands back the card with
its `'name'` field equal to the value it had before the call: the
temporary `card['name'] += alt` is undone by the restoring assignment, so
qualified allocation has no lasting effect on the card payload. -/
theorem claim_C10 (dir_path set_name : List Char) (st : St) (card : CardN)
    (a : List Char) (_ha : a ≠ []) :
    ((get_filename dir_path set_name st card (some a)).2.2).name =
      card.name := by
  rw [get_filename_eq_core]

/-- Witness for C10: qualifying `Blue Bird` with `-bk` leaves the card's
name `Blue Bird`. -/
theorem claim_C10_witness :
    ("-bk".data ≠ ([] : List Char)) ∧
    ((get_filename "d".data "S".data St.init ⟨"Blue Bird".data⟩
      (some "-bk".data)).2.2).name = "Blue Bird".data :=
  ⟨by decide,
   claim_C10 "d".data "S".data St.init ⟨"Blue Bird".data⟩ "-bk".data
     (by decide)⟩

/-- C2 (amended): (a) for a single-image card, `save_card_image` performs
exactly one `get_filename` allocation followed by the write at the
returned path; (b) for a sequence of N ≥ 1 allocations of one key whose
sanitized name does not end in a decimal digit, starting from a registry
in which the key is absent, exactly one successful rename occurs across
the whole run — triggered at the 2nd occurrence, renaming the file of
`name` to the file of `name1` — and no rename occurs at occurrence 1 or
at any occurrence k > 2. -/
theorem claim_C2 :
    (∀ (output_dir : List Char) (st : St) (card : Card) (usn : Bool)
        (url : List Char), card.card_faces = none →
      card.image_uris = some url →
      save_card_image output_dir st card usn =
        (let set_name := setDirName card usn
         let dir_path := os_path_join output_dir set_name
         let r := get_filename dir_path set_name st ⟨card.name⟩ none
         let st2 := write_file r.2.1 r.1
         ({ st2 with log := st2.log ++ [savedMsg set_name card.name] },
           Except.ok (1, 0)))) ∧
    (∀ (dir_path set_name raw : List Char) (st : St) (N : Nat),
      lookupK st.keys (mkKey set_name (get_valid_filename raw)) = none →
      endsDigit (get_valid_filename raw) = false → 1 ≤ N →
      (run_alloc dir_path set_name st
        (List.replicate N (raw, none))).renames =
        st.renames ++
          (if 2 ≤ N then
            [(fpath dir_path (get_valid_filename raw),
              fpath dir_path (get_valid_filename raw ++ ['1']))]
           else [])) :=
  ⟨fun od st card usn url hfc hu => save_simple_eq od st card usn url hfc
     hu,
   fun d sn raw st N h hd hN => run_alloc_renames d sn raw st N h hd hN⟩

/-- C2 (counterexample): for the key name `Island1` — whose sanitized
form ends in a digit — two occurrences produce the files `Island1` and
`Island12` and NO rename at all (the `[0-9]+$` check reads the trailing
run `12`, whose value is not 2), contradicting "exactly one rename,
triggered at occurrence 2". -/
theorem claim_C2_counterexample :
    (run_alloc "art/LTR".data "LTR".data St.init
      (List.replicate 2 (("Island1".data : List Char),
        (none : Option (List Char))))).renames = [] ∧
    (run_alloc "art/LTR".data "LTR".data St.init
      (List.replicate 2 (("Island1".data : List Char),
        (none : Option (List Char))))).writes =
      ["art/LTR/Island1.full.jpg".data,
       "art/LTR/Island12.full.jpg".data] := by
  decide

/-- Witness for C2: three allocations of `Island` rename
`Island.full.jpg` to `Island1.full.jpg` exactly once. -/
theorem claim_C2_witness :
    (lookupK St.init.keys
      (mkKey "LTR".data (get_valid_filename "Island".data)) = none ∧
     endsDigit (get_valid_filename "Island".data) = false ∧ 1 ≤ 3) ∧
    (run_alloc "art/LTR".data "LTR".data St.init
      (List.replicate 3 (("Island".data : List Char),
        (none : Option (List Char))))).renames =
      [("art/LTR/Island.full.jpg".data,
        "art/LTR/Island1.full.jpg".data)] := by
  refine ⟨⟨by decide, by decide, by omega⟩, ?_⟩
  have h := claim_C2.2 "art/LTR".data "LTR".data "Island".data St.init 3
    (by decide) (by decide) (by omega)
  rw [h]
  decide

/-- C3 (amended): provided no sanitized effective card name of the run
ends in a decimal digit, a sequence of allocations in one set directory
starting from the initial state leaves exactly as many files on disk as
there were allocations — i.e. all final on-disk filenames (renamed first
occurrences included) are pairwise distinct. -/
theorem claim_C3 (dir_path set_name : List Char)
    (es : List (List Char × Option (List Char)))
    (hes : ∀ e ∈ es, endsDigit (get_valid_filename (effName e)) = false) :
    (run_alloc dir_path set_name St.init es).files.card = es.length :=
  run_alloc_card dir_path set_name es hes

/-- C3 (counterexample): with card names `Island2`, `Island`, `Island` in
one set, the 1st and 3rd allocations both yield the on-disk filename
`Island2.full.jpg` — three allocations leave only two files. -/
theorem claim_C3_counterexample :
    (run_alloc "art/S1".data "S1".data St.init
      [("Island2".data, none), ("Island".data, none),
       ("Island".data, none)]).files.card = 2 ∧
    (run_alloc "art/S1".data "S1".data St.init
      [("Island2".data, none), ("Island".data, none),
       ("Island".data, none)]).writes =
      ["art/S1/Island2.full.jpg".data, "art/S1/Island.full.jpg".data,
       "art/S1/Island2.full.jpg".data] := by
  decide

/-- Witness for C3: three digit-free allocations leave three files. -/
theorem claim_C3_witness :
    (∀ e ∈ ([("Island".data, none), ("Island".data, none),
        ("Island".data, none)] : List (List Char × Option (List Char))),
      endsDigit (get_valid_filename (effName e)) = false) ∧
    (run_alloc "art/S1".data "S1".data St.init
      [("Island".data, none), ("Island".data, none),
       ("Island".data, none)]).files.card = 3 := by
  refine ⟨by decide, ?_⟩
  have h := claim_C3 "art/S1".data "S1".data
    [("Island".data, none), ("Island".data, none), ("Island".data, none)]
    (by decide)
  rw [h]
  decide

/-- C7 (amended): only a card with no (or empty) `card_faces` and no
top-level `image_uris` is handled gracefully: it yields a "not saved"
outcome with the diagnostic line and processing continues with the next
card.  A card whose processing raises (e.g. a multi-face card lacking a
face image reference) aborts the card loop of the current query: the
exception is caught outside the loop and the remaining cards are not
processed. -/
theorem claim_C7 :
    (∀ (output_dir : List Char) (usn : Bool) (st : St) (card : Card)
        (rest : List Card),
      (card.card_faces = none ∨ card.card_faces = some []) →
      card.image_uris = none →
      save_card_image output_dir st card usn =
        ({ st with log := st.log ++ [noImageMsg card.name] },
          Except.ok (0, 1)) ∧
      process_cards output_dir usn st (card :: rest) =
        ((process_cards output_dir usn
            { st with log := st.log ++ [noImageMsg card.name] } rest).1,
         (process_cards output_dir usn
            { st with log := st.log ++ [noImageMsg card.name] } rest).2.1,
         (process_cards output_dir usn
            { st with log := st.log ++ [noImageMsg card.name] }
            rest).2.2.1 + 1,
         (process_cards output_dir usn
            { st with log := st.log ++ [noImageMsg card.name] }
            rest).2.2.2)) ∧
    (∀ (output_dir : List Char) (usn : Bool) (st st1 : St) (card : Card)
        (rest : List Card) (e : List Char),
      save_card_image output_dir st card usn = (st1, Except.error e) →
      process_cards output_dir usn st (card :: rest) =
        (st1, 0, 0, some e)) := by
  constructor
  · intro od usn st card rest hfc hu
    have hs := save_card_image_no_image od st card usn hfc hu
    refine ⟨hs, ?_⟩
    have hp := process_cards_cons_ok od usn st _ card rest 0 1 hs
    rw [hp]
    simp [Nat.add_comm]
  · intro od usn st st1 card rest e h
    exact process_cards_error_stops od usn st st1 card rest e h

/-- A `transform` card whose first face has no image reference: accessing
`card_faces[0]['image_uris']` raises `KeyError` in the source. -/
def c7BadCard : Card :=
  { set := "UTX".data, set_name := "Unit Test X".data,
    name := "Abomination // Beast".data,
    layout := some "transform".data,
    card_faces := some [⟨"Abomination".data, none⟩,
      ⟨"Beast".data, some "u".data⟩],
    image_uris := none }

/-- An ordinary single-image card that would save fine on its own. -/
def c7GoodCard : Card :=
  { set := "UTX".data, set_name := "Unit Test X".data,
    name := "Mountain".data, layout := none, card_faces := none,
    image_uris := some "u".data }

/-- C7 (counterexample): a transform card missing a face image reference
does NOT yield a "not saved" outcome and processing does NOT continue:
the exception escapes (caught only at the query level), the card is not
counted, and the following card is never processed. -/
theorem claim_C7_counterexample :
    (process_cards "art".data false St.init
      [c7BadCard, c7GoodCard]).2.2.2 = some keyErrorImageUris ∧
    (process_cards "art".data false St.init
      [c7BadCard, c7GoodCard]).2.1 = 0 ∧
    (process_cards "art".data false St.init
      [c7BadCard, c7GoodCard]).2.2.1 = 0 := by
  decide

/-- Witness for C7: a card with no faces and no image reference is
logged, counted "not saved", and the loop goes on. -/
theorem claim_C7_witness :
    ((⟨"UTX".data, "X".data, "Ghost".data, none, none, none⟩ :
        Card).card_faces = none ∨
      (⟨"UTX".data, "X".data, "Ghost".data, none, none, none⟩ :
        Card).card_faces = some []) ∧
    save_card_image "art".data St.init
      ⟨"UTX".data, "X".data, "Ghost".data, none, none, none⟩ false =
      ({ St.init with log := [noImageMsg "Ghost".data] },
        Except.ok (0, 1)) := by
  refine ⟨Or.inl rfl, ?_⟩
  have h := (claim_C7.1 "art".data false St.init
    ⟨"UTX".data, "X".data, "Ghost".data, none, none, none⟩ []
    (Or.inl rfl) rfl).1
  rw [h]
  rfl

/-- C8: for every reversible card whose two faces carry image data,
exactly two files are planned (two writes, card counted saved); and when
both faces carry the identical name and neither derived key is in the
registry, the two planned files are face[0] under its unsuffixed
sanitized name and face[1] under its name with the fixed `-bk` qualifier
appended — distinct paths, with no duplicate-suffix allocation, because
the qualifier makes the registry keys distinct. -/
theorem claim_C8 :
    (∀ (output_dir : List Char) (st : St) (card : Card) (usn : Bool)
        (f0 f1 : Face) (frest : List Face) (u0 u1 : List Char),
      card.card_faces = some (f0 :: f1 :: frest) →
      card.layout = some "reversible_card".data →
      f0.image_uris = some u0 → f1.image_uris = some u1 →
      (save_card_image output_dir st card usn).1.writes.length =
        st.writes.length + 2 ∧
      (save_card_image output_dir st card usn).2 = Except.ok (1, 0)) ∧
    (∀ (output_dir : List Char) (st : St) (card : Card) (usn : Bool)
        (f0 f1 : Face) (frest : List Face) (u0 u1 : List Char),
      card.card_faces = some (f0 :: f1 :: frest) →
      card.layout = some "reversible_card".data →
      f0.image_uris = some u0 → f1.image_uris = some u1 →
      f0.name = f1.name →
      lookupK st.keys (mkKey (setDirName card usn)
        (get_valid_filename f0.name)) = none →
      lookupK st.keys (mkKey (setDirName card usn)
        (get_valid_filename (f1.name ++ "-bk".data))) = none →
      (save_card_image output_dir st card usn).1.writes =
        st.writes ++
          [fpath (os_path_join output_dir (setDirName card usn))
            (get_valid_filename f0.name),
           fpath (os_path_join output_dir (setDirName card usn))
            (get_valid_filename (f1.name ++ "-bk".data))] ∧
      fpath (os_path_join output_dir (setDirName card usn))
          (get_valid_filename f0.name) ≠
        fpath (os_path_join output_dir (setDirName card usn))
          (get_valid_filename (f1.name ++ "-bk".data))) := by
  constructor
  · intro od st card usn f0 f1 frest u0 u1 hfc hlay hu0 hu1
    rw [save_reversible_eq od st card usn f0 f1 frest u0 u1 hfc hlay hu0
      hu1]
    constructor
    · dsimp only
      simp only [write_file, get_filename_writes, List.length_append,
        List.length_singleton]
    · rfl
  · intro od st card usn f0 f1 frest u0 u1 hfc hlay hu0 hu1 hnm hl0 hl1
    rw [save_reversible_eq od st card usn f0 f1 frest u0 u1 hfc hlay hu0
      hu1]
    have heff0 : effAlt ⟨f0.name⟩ none = f0.name := rfl
    have heff1 : effAlt ⟨f1.name⟩ (some "-bk".data) =
      f1.name ++ "-bk".data := rfl
    have hbkne : get_valid_filename (f1.name ++ "-bk".data) ≠
        get_valid_filename f0.name := by
      rw [hnm]
      exact gvf_bk_ne f1.name
    have hf0 := get_filename_fresh_parts
      (os_path_join od (setDirName card usn)) (setDirName card usn) st
      ⟨f0.name⟩ none (by rw [heff0]; exact hl0)
    rw [heff0] at hf0
    have hkne : mkKey (setDirName card usn)
        (get_valid_filename (f1.name ++ "-bk".data)) ≠
        mkKey (setDirName card usn) (get_valid_filename f0.name) :=
      fun h => hbkne (mkKey_inj_name _ _ _ h)
    have hl1' : lookupK ((write_file
        (get_filename (os_path_join od (setDirName card usn))
          (setDirName card usn) st ⟨f0.name⟩ none).2.1
        (get_filename (os_path_join od (setDirName card usn))
          (setDirName card usn) st ⟨f0.name⟩ none).1).keys)
        (mkKey (setDirName card usn)
          (get_valid_filename (f1.name ++ "-bk".data))) = none := by
      show lookupK ((get_filename (os_path_join od (setDirName card usn))
        (setDirName card usn) st ⟨f0.name⟩ none).2.1).keys _ = none
      rw [hf0.2, lookupK_setK_ne _ _ _ _ hkne]
      exact hl1
    have hf1 := get_filename_fresh_parts
      (os_path_join od (setDirName card usn)) (setDirName card usn)
      (write_file
        (get_filename (os_path_join od (setDirName card usn))
          (setDirName card usn) st ⟨f0.name⟩ none).2.1
        (get_filename (os_path_join od (setDirName card usn))
          (setDirName card usn) st ⟨f0.name⟩ none).1)
      ⟨f1.name⟩ (some "-bk".data) (by rw [heff1]; exact hl1')
    rw [heff1] at hf1
    refine ⟨?_, ?_⟩
    · show ((get_filename (os_path_join od (setDirName card usn))
        (setDirName card usn) (write_file
          (get_filename (os_path_join od (setDirName card usn))
            (setDirName card usn) st ⟨f0.name⟩ none).2.1
          (get_filename (os_path_join od (setDirName card usn))
            (setDirName card usn) st ⟨f0.name⟩ none).1)
        ⟨f1.name⟩ (some "-bk".data)).2.1).writes ++
        [(get_filename (os_path_join od (setDirName card usn))
          (setDirName card usn) (write_file
            (get_filename (os_path_join od (setDirName card usn))
              (setDirName card usn) st ⟨f0.name⟩ none).2.1
            (get_filename (os_path_join od (setDirName card usn))
              (setDirName card usn) st ⟨f0.name⟩ none).1)
          ⟨f1.name⟩ (some "-bk".data)).1] = _
      rw [get_filename_writes, hf1.1]
      show ((get_filename (os_path_join od (setDirName card usn))
        (setDirName card usn) st ⟨f0.name⟩ none).2.1).writes ++
        [(get_filename (os_path_join od (setDirName card usn))
          (setDirName card usn) st ⟨f0.name⟩ none).1] ++ _ = _
      rw [get_filename_writes, hf0.1, List.append_assoc]
      rfl
    · intro heq
      have h2 := fpath_inj (os_path_join od (setDirName card usn))
        (slash_not_mem_gvf f0.name)
        (slash_not_mem_gvf (f1.name ++ "-bk".data)) heq
      exact hbkne h2.symm

/-- Witness for C8: the repository's own reversible test card — two faces
both named `Blue Bird` — plans exactly the two files `Blue Bird.full.jpg`
and `Blue Bird-bk.full.jpg` in `unit-test/UT3`. -/
theorem claim_C8_witness :
    ((⟨"UT3".data, "Unit Test 3".data, "Blue Bird // Blue Bird".data,
        some "reversible_card".data,
        some [⟨"Blue Bird".data, some "u".data⟩,
          ⟨"Blue Bird".data, some "u".data⟩], none⟩ :
      Card).layout = some "reversible_card".data) ∧
    (save_card_image "unit-test".data St.init
      ⟨"UT3".data, "Unit Test 3".data, "Blue Bird // Blue Bird".data,
        some "reversible_card".data,
        some [⟨"Blue Bird".data, some "u".data⟩,
          ⟨"Blue Bird".data, some "u".data⟩], none⟩
      false).1.writes =
      ["unit-test/UT3/Blue Bird.full.jpg".data,
       "unit-test/UT3/Blue Bird-bk.full.jpg".data] := by
  refine ⟨rfl, ?_⟩
  have h := (claim_C8.2 "unit-test".data St.init
    ⟨"UT3".data, "Unit Test 3".data, "Blue Bird // Blue Bird".data,
      some "reversible_card".data,
      some [⟨"Blue Bird".data, some "u".data⟩,
        ⟨"Blue Bird".data, some "u".data⟩], none⟩
    false ⟨"Blue Bird".data, some "u".data⟩
    ⟨"Blue Bird".data, some "u".data⟩ [] "u".data "u".data rfl rfl rfl rfl
    rfl (by decide) (by decide)).1
  rw [h]
  decide

end Claims

end MtgDownloader
